import Mathlib

/-! Frame pool and streaming pipeline of the license-plate redactor.

A shallow embedding of `src/core/FrameBuffer.{h,cpp}` and
`src/core/VideoProcessor.{h,cpp}`.

Modelling conventions.
* `cv::Mat` is a value: its geometry and its pixel data. Reference counting and
  storage sharing are not modelled.
* `std::queue<cv::Mat>` is a list whose head is the front of the queue.
* `size_t` occupancy and capacity are natural numbers (no arithmetic is done
  on them, only the comparison `size < capacity`).
* `int` counters are integers: the only arithmetic on them is `++`, and signed
  overflow has no defined behaviour in the source language. `static_cast<int>` of a
  reported whole number is that number; it is exact between `INT_MIN` and `INT_MAX`.
* A `double` that comes from outside (the rate a capture reports, the rate asked of
  `openOutput`) is a `Double`: NaN, an infinity or a finite value. The `double`
  quantities the processor computes are finite and are given by their values, as
  rationals; `progress()` rounds its quotient to binary64, the seconds and the
  processing rate of the statistics are not rounded.
* `cv::VideoCapture` and `cv::VideoWriter` are the external collaborators: the
  capture is the finite sequence of results its `read` calls will give, the
  writer is the list of frames handed to `write`.
* The frame transform is a function of the frame and its index; the progress
  callback is observed through the snapshots it is called with.
* `steady_clock::now()` is a sequence of readings given from outside.
-/

namespace lpr

/-! ## Frames -/

/-- A `cv::Mat` as a value: rows, columns and pixel data. -/
structure Mat where
  rows : Nat
  cols : Nat
  data : List Nat
  deriving DecidableEq, Repr

/-- The default-constructed `cv::Mat()`: no storage attached. -/
def Mat.mk0 : Mat := { rows := 0, cols := 0, data := [] }

instance : Inhabited Mat := ⟨Mat.mk0⟩

/-- The test `cv::Mat::empty()`: the matrix has no element. -/
def Mat.empty (m : Mat) : Bool := m.rows == 0 || m.cols == 0

/-! ## Rates: values of type `double` that come from outside -/

/-- A `double` as the processor receives it from the capture or from its caller: not a
number, an infinity, or a finite value. -/
inductive Double where
  | nan : Double
  | negInf : Double
  | fin : ℚ → Double
  | posInf : Double
  deriving DecidableEq

/-- The comparison `x <= y` of two `double` values: false as soon as one is NaN. -/
def Double.le : Double → Double → Bool
  | .nan, _ => false
  | .negInf, .nan => false
  | .negInf, _ => true
  | .fin _, .nan => false
  | .fin _, .negInf => false
  | .fin a, .fin b => decide (a ≤ b)
  | .fin _, .posInf => true
  | .posInf, .posInf => true
  | .posInf, _ => false

/-- The comparison `x < y` of two `double` values: false as soon as one is NaN. -/
def Double.lt : Double → Double → Bool
  | .nan, _ => false
  | .negInf, .nan => false
  | .negInf, .negInf => false
  | .negInf, _ => true
  | .fin _, .nan => false
  | .fin _, .negInf => false
  | .fin a, .fin b => decide (a < b)
  | .fin _, .posInf => true
  | .posInf, _ => false

instance : LE Double := ⟨fun x y => Double.le x y = true⟩

instance : LT Double := ⟨fun x y => Double.lt x y = true⟩

instance (x y : Double) : Decidable (x ≤ y) :=
  inferInstanceAs (Decidable (Double.le x y = true))

instance (x y : Double) : Decidable (x < y) :=
  inferInstanceAs (Decidable (Double.lt x y = true))

instance (n : Nat) : OfNat Double n := ⟨Double.fin (n : ℚ)⟩

/-! ## FrameBuffer (`FrameBuffer.h`, `FrameBuffer.cpp`) -/

/-- The private members of class `FrameBuffer`: `capacity_` and `pool_`
(head of the list = front of the queue). -/
structure FrameBuffer where
  capacity_ : Nat
  pool_ : List Mat
  deriving DecidableEq, Repr

/-- The constructor `FrameBuffer::FrameBuffer(size_t capacity)`: the pool starts empty. -/
def FrameBuffer.new (capacity : Nat) : FrameBuffer :=
  { capacity_ := capacity, pool_ := [] }

/-- The method `FrameBuffer::acquire()`: pops the front of the pool when there is one,
otherwise returns `cv::Mat()`. -/
def FrameBuffer.acquire (b : FrameBuffer) : Mat × FrameBuffer :=
  match b.pool_ with
  | frame :: rest => (frame, { b with pool_ := rest })
  | [] => (Mat.mk0, b)

/-- The method `FrameBuffer::release(cv::Mat frame)`: an empty frame is ignored;
a non-empty one is pushed at the back when `pool_.size() < capacity_`. -/
def FrameBuffer.release (b : FrameBuffer) (frame : Mat) : FrameBuffer :=
  if frame.empty then b
  else if b.pool_.length < b.capacity_ then { b with pool_ := b.pool_ ++ [frame] }
  else b

/-- The method `FrameBuffer::available()`: `pool_.size()`. -/
def FrameBuffer.available (b : FrameBuffer) : Nat := b.pool_.length

/-- The method `FrameBuffer::clear()`: swaps the pool with an empty queue. -/
def FrameBuffer.clear (b : FrameBuffer) : FrameBuffer := { b with pool_ := [] }

/-- One call on the public interface of a `FrameBuffer`. -/
inductive PoolOp where
  | acquire : PoolOp
  | release : Mat → PoolOp
  | clear : PoolOp
  deriving DecidableEq, Repr

/-- The pool after one call. -/
def FrameBuffer.step (b : FrameBuffer) : PoolOp → FrameBuffer
  | .acquire => b.acquire.2
  | .release frame => b.release frame
  | .clear => b.clear

/-- The pool after a sequence of calls, made from left to right. -/
def FrameBuffer.run (b : FrameBuffer) : List PoolOp → FrameBuffer
  | [] => b
  | op :: ops => (b.step op).run ops

/-- The least value of the 32-bit `int` of the source (`INT_MIN`). -/
def INT_MIN : Int := -2147483648

/-- The greatest value of the 32-bit `int` of the source (`INT_MAX`). -/
def INT_MAX : Int := 2147483647

/-! ## External collaborators: `cv::VideoCapture` and `cv::VideoWriter` -/

/-- The source collaborator `cv::VideoCapture`. `opened` is `isOpened()`; `width`,
`height`, `frame_count` and `fourcc` are the whole numbers `get(CAP_PROP_...)`
reports for `FRAME_WIDTH`, `FRAME_HEIGHT`, `FRAME_COUNT` and `FOURCC` (`static_cast<int>`
is the identity on them between `INT_MIN` and `INT_MAX` and has no defined result
outside), `fps` is `get(CAP_PROP_FPS)`, a `double` that may be NaN or infinite;
`stream` lists what the coming calls of `read` will give, in order: the returned
flag and the frame stored. Once the list is used up `read` returns false. -/
structure VideoCapture where
  opened : Bool
  width : Int
  height : Int
  fps : Double
  frame_count : Int
  fourcc : Int
  stream : List (Bool × Mat)
  deriving DecidableEq

/-- A default-constructed `cv::VideoCapture`: not opened, nothing to read. -/
def VideoCapture.new : VideoCapture :=
  { opened := false, width := 0, height := 0, fps := 0, frame_count := 0, fourcc := 0,
    stream := [] }

/-- The call `cv::VideoCapture::release()`: the capture goes back to the not-opened state. -/
def VideoCapture.release (_c : VideoCapture) : VideoCapture := VideoCapture.new

/-- The arguments of `cv::VideoWriter::open(filename, fourcc, fps, frameSize, isColor)`. -/
structure OpenRequest where
  filename : String
  fourcc : Int
  fps : Double
  width : Int
  height : Int
  isColor : Bool
  deriving DecidableEq

/-- The world outside the processor: `capture path` is the state in which
`video_capture_.open(path)` leaves the capture (opened or not), and `writerOpens req`
tells whether `video_writer_.open` succeeds for the request `req`. -/
structure Env where
  capture : String → VideoCapture
  writerOpens : OpenRequest → Bool

/-- The sink collaborator `cv::VideoWriter`. `opened` is `isOpened()`, `request` the
arguments of the last `open`, `written` the frames handed to `write` since then. -/
structure VideoWriter where
  opened : Bool
  request : Option OpenRequest
  written : List Mat
  deriving DecidableEq

/-- A default-constructed `cv::VideoWriter`. -/
def VideoWriter.new : VideoWriter := { opened := false, request := none, written := [] }

/-- The call `cv::VideoWriter::open(...)`: a new output is started; whether it is opened
is the world's answer to the request. -/
def VideoWriter.open (_w : VideoWriter) (env : Env) (req : OpenRequest) : VideoWriter :=
  { opened := env.writerOpens req, request := some req, written := [] }

/-- The call `cv::VideoWriter::write(frame)`: an opened writer appends the frame. -/
def VideoWriter.write (w : VideoWriter) (frame : Mat) : VideoWriter :=
  if w.opened then { w with written := w.written ++ [frame] } else w

/-- The call `cv::VideoWriter::release()`: the output is finalised. -/
def VideoWriter.release (w : VideoWriter) : VideoWriter := { w with opened := false }

/-! ## ProcessingStats and VideoProcessor (`VideoProcessor.h`, `VideoProcessor.cpp`) -/

/-- The struct `ProcessingStats`. -/
structure ProcessingStats where
  total_frames : Int
  processed_frames : Int
  fps : ℚ
  elapsed_seconds : ℚ
  deriving DecidableEq

/-- The value-initialised `ProcessingStats()`: the default member initialisers. -/
def ProcessingStats.new : ProcessingStats :=
  { total_frames := 0, processed_frames := 0, fps := 0, elapsed_seconds := 0 }

/-- The integer nearest to `n / d`, the even one of the two when `n / d` lies half way
(the rounding of binary64 arithmetic), for `d > 0`. -/
def roundNearestEven (n d : Nat) : Nat :=
  if 2 * (n % d) < d then n / d
  else if d < 2 * (n % d) then n / d + 1
  else if (n / d) % 2 = 0 then n / d else n / d + 1

/-- The exponent `e` of the last place of the binary64 quotient of `a` by `b`, for
`a, b > 0`: the one with `2^52 <= (a / b) / 2^e < 2^53`. -/
def binary64Exponent (a b : Nat) : Int :=
  (if b * 2 ^ ((Nat.log2 a : Int) - (Nat.log2 b : Int)).toNat ≤
      a * 2 ^ ((Nat.log2 b : Int) - (Nat.log2 a : Int)).toNat
    then (Nat.log2 a : Int) - (Nat.log2 b : Int)
    else (Nat.log2 a : Int) - (Nat.log2 b : Int) - 1) - 52

/-- The 53-bit significand of the binary64 quotient of `a` by `b`, for `a, b > 0`:
`(a / b) / 2^e` rounded to the nearest integer, `e` being `binary64Exponent a b`. -/
def binary64Significand (a b : Nat) : Nat :=
  roundNearestEven (a * 2 ^ (-(binary64Exponent a b)).toNat)
    (b * 2 ^ (binary64Exponent a b).toNat)

/-- The value of `static_cast<double>(p) / t` for two `int` values, `t` not zero: both
operands convert to `double` exactly and the division gives the binary64 number nearest
to the quotient, significand times power of two, with the sign of the quotient. The
quotient of two `int` values is far from the least and the greatest binary64 numbers,
so neither underflow nor overflow occurs. Its only use is under `total_frames > 0`. -/
def binary64Div (p t : Int) : ℚ :=
  if p = 0 ∨ t = 0 then 0
  else ((p.sign * t.sign : Int) : ℚ) * (binary64Significand p.natAbs t.natAbs : ℚ) *
    (2 : ℚ) ^ binary64Exponent p.natAbs t.natAbs

/-- The method `ProcessingStats::progress()`; the `double` it returns is given by its
value. -/
def ProcessingStats.progress (st : ProcessingStats) : ℚ :=
  if st.total_frames > 0 then binary64Div st.processed_frames st.total_frames else 0

/-- The private members of class `VideoProcessor`. -/
structure VideoProcessor where
  video_capture_ : VideoCapture
  video_writer_ : VideoWriter
  frame_width_ : Int
  frame_height_ : Int
  fps_ : Double
  total_frames_ : Int
  fourcc_ : Int
  frame_buffer_ : FrameBuffer
  stats_ : ProcessingStats
  deriving DecidableEq

/-- The constructor `VideoProcessor::VideoProcessor()`: default member initialisers and
a pool of capacity 16. -/
def VideoProcessor.new : VideoProcessor :=
  { video_capture_ := VideoCapture.new, video_writer_ := VideoWriter.new,
    frame_width_ := 0, frame_height_ := 0, fps_ := 0, total_frames_ := 0, fourcc_ := 0,
    frame_buffer_ := FrameBuffer.new 16, stats_ := ProcessingStats.new }

/-- The accessor `getTotalFrames()`. -/
def VideoProcessor.getTotalFrames (s : VideoProcessor) : Int := s.total_frames_

/-- The accessor `getStats()`. -/
def VideoProcessor.getStats (s : VideoProcessor) : ProcessingStats := s.stats_

/-- The method `VideoProcessor::readVideoProperties()`: caches the five properties of
the capture, fails when width or height is `<= 0`, replaces a rate `<= 0` by 30; a
total `<= 0` only produces a warning. -/
def VideoProcessor.readVideoProperties (s : VideoProcessor) : Bool × VideoProcessor :=
  let s1 := { s with
    frame_width_ := s.video_capture_.width,
    frame_height_ := s.video_capture_.height,
    fps_ := s.video_capture_.fps,
    total_frames_ := s.video_capture_.frame_count,
    fourcc_ := s.video_capture_.fourcc }
  if s1.frame_width_ ≤ 0 ∨ s1.frame_height_ ≤ 0 then (false, s1)
  else
    let s2 := if s1.fps_ ≤ 0 then { s1 with fps_ := 30 } else s1
    (true, s2)

/-- The method `VideoProcessor::openInput(input_path)`. -/
def VideoProcessor.openInput (s : VideoProcessor) (env : Env) (input_path : String) :
    Bool × VideoProcessor :=
  let s1 := { s with video_capture_ := env.capture input_path }
  if !s1.video_capture_.opened then (false, s1)
  else
    let r := s1.readVideoProperties
    if !r.1 then (false, { r.2 with video_capture_ := r.2.video_capture_.release })
    else (true, r.2)

/-- The method `VideoProcessor::openOutput(output_path, fourcc, fps, quality)`. -/
def VideoProcessor.openOutput (s : VideoProcessor) (env : Env) (output_path : String)
    (fourcc : Int) (fps : Double) (_quality : Int) : Bool × VideoProcessor :=
  if !s.video_capture_.opened then (false, s)
  else
    let fourcc1 := if fourcc = 0 then s.fourcc_ else fourcc
    let fps1 := if fps ≤ 0 then s.fps_ else fps
    let w := s.video_writer_.open env
      { filename := output_path, fourcc := fourcc1, fps := fps1,
        width := s.frame_width_, height := s.frame_height_, isColor := true }
    if !w.opened then (false, { s with video_writer_ := w })
    else (true, { s with video_writer_ := w })

/-- What `process` does that an observer outside can see, in order: a `read` of the
capture (flag returned, frame stored), a call of the transform, a `write` to the
sink, a call of the progress callback with the snapshot it receives. -/
inductive Event where
  | read : Bool → Mat → Event
  | transform : Mat → Int → Event
  | write : Mat → Event
  | progress : ProcessingStats → Event
  deriving DecidableEq

/-- The variables the loop of `process` works on: the sink, the pool, `stats_`,
`frame_number`, the number of clock readings made so far, the events so far, and
what is left of the source stream. -/
structure LoopState where
  video_writer_ : VideoWriter
  frame_buffer_ : FrameBuffer
  stats_ : ProcessingStats
  frame_number : Int
  ticks : Nat
  trace : List Event
  pending : List (Bool × Mat)

/-- The frame the loop writes for the frame read: the result of the transform when
one is supplied, the frame itself otherwise (`processed_frame`). -/
def applyCallback (callback : Option (Mat → Int → Mat)) (frame : Mat) (frame_number : Int) :
    Mat :=
  match callback with
  | some f => f frame frame_number
  | none => frame

/-- One iteration of the loop of `process` after a successful read of a non-empty
`frame`: transform, write, count, progress report, release to the pool.
`callback` is the frame transform (`none` for a null `std::function`),
`progress_callback` tells whether a progress callback was supplied, `now k` is the
value of the `k`-th reading of `steady_clock::now()` in this call and `start_time`
the first reading. -/
def processFrame (callback : Option (Mat → Int → Mat)) (progress_callback : Bool)
    (now : Nat → ℚ) (start_time : ℚ) (frame : Mat) (st : LoopState) : LoopState :=
  let processed_frame := applyCallback callback frame st.frame_number
  let st2 : LoopState := match callback with
    | some _ => { st with trace := st.trace ++ [Event.transform frame st.frame_number] }
    | none => st
  let st3 : LoopState :=
    if !processed_frame.empty then
      { st2 with
        video_writer_ := st2.video_writer_.write processed_frame,
        stats_ := { st2.stats_ with processed_frames := st2.stats_.processed_frames + 1 },
        trace := st2.trace ++ [Event.write processed_frame] }
    else st2
  let st4 : LoopState := { st3 with frame_number := st3.frame_number + 1 }
  let st5 : LoopState :=
    if progress_callback && Int.tmod st4.frame_number 30 == 0 then
      let current_time := now st4.ticks
      let stats1 : ProcessingStats :=
        { st4.stats_ with elapsed_seconds := current_time - start_time }
      { st4 with stats_ := stats1, ticks := st4.ticks + 1,
                 trace := st4.trace ++ [Event.progress stats1] }
    else st4
  { st5 with frame_buffer_ := st5.frame_buffer_.release frame }

/-- The `while (true)` loop of `VideoProcessor::process`, one iteration per entry of
the source stream: the loop is left when `read` returns false (also when the stream
is used up) or stores an empty frame. -/
def processLoop (callback : Option (Mat → Int → Mat)) (progress_callback : Bool)
    (now : Nat → ℚ) (start_time : ℚ) : List (Bool × Mat) → LoopState → LoopState
  | [], st => { st with pending := [], trace := st.trace ++ [Event.read false Mat.mk0] }
  | (ok, frame) :: rest, st =>
    let st1 : LoopState :=
      { st with pending := rest, trace := st.trace ++ [Event.read ok frame] }
    if !ok then st1
    else if frame.empty then st1
    else processLoop callback progress_callback now start_time rest
      (processFrame callback progress_callback now start_time frame st1)

/-- What a call of `process` gives: the value returned, the processor afterwards and
the events of the call. -/
structure ProcessResult where
  result : Bool
  state : VideoProcessor
  trace : List Event

/-- The method `VideoProcessor::process(callback, progress_callback)`. -/
def VideoProcessor.process (s : VideoProcessor) (callback : Option (Mat → Int → Mat))
    (progress_callback : Bool) (now : Nat → ℚ) : ProcessResult :=
  if !s.video_capture_.opened then { result := false, state := s, trace := [] }
  else if !s.video_writer_.opened then { result := false, state := s, trace := [] }
  else
    let stats0 : ProcessingStats := { ProcessingStats.new with total_frames := s.total_frames_ }
    let start_time := now 0
    let st := processLoop callback progress_callback now start_time s.video_capture_.stream
      { video_writer_ := s.video_writer_, frame_buffer_ := s.frame_buffer_, stats_ := stats0,
        frame_number := 0, ticks := 1, trace := [], pending := s.video_capture_.stream }
    let end_time := now st.ticks
    let stats1 : ProcessingStats := { st.stats_ with elapsed_seconds := end_time - start_time }
    let stats2 : ProcessingStats :=
      if stats1.elapsed_seconds > 0 then
        { stats1 with fps := (stats1.processed_frames : ℚ) / stats1.elapsed_seconds }
      else stats1
    { result := decide (stats2.processed_frames > 0),
      state := { s with
        video_capture_ := { s.video_capture_ with stream := st.pending },
        video_writer_ := st.video_writer_,
        frame_buffer_ := st.frame_buffer_,
        stats_ := stats2 },
      trace := st.trace }

/-- The method `VideoProcessor::close()`. -/
def VideoProcessor.close (s : VideoProcessor) : VideoProcessor :=
  let s1 := if s.video_capture_.opened then
      { s with video_capture_ := s.video_capture_.release } else s
  let s2 := if s1.video_writer_.opened then
      { s1 with video_writer_ := s1.video_writer_.release } else s1
  { s2 with frame_buffer_ := s2.frame_buffer_.clear }

/-! ## Reference functions used to state the properties of the loop -/

/-- The frames the loop handles: the frames of the stream up to, and without, the
first entry whose read fails or whose frame is empty. -/
def framesRead : List (Bool × Mat) → List Mat
  | [] => []
  | (ok, frame) :: rest => if ok && !frame.empty then frame :: framesRead rest else []

/-- The frames `applyCallback` gives for `frames`, numbered from `i` upwards. -/
def outputs (callback : Option (Mat → Int → Mat)) : List Mat → Int → List Mat
  | [], _ => []
  | frame :: frames, i => applyCallback callback frame i :: outputs callback frames (i + 1)

/-- The non-empty frames among `outputs`, in order. -/
def emitted (callback : Option (Mat → Int → Mat)) (frames : List Mat) (i : Int) : List Mat :=
  (outputs callback frames i).filter (fun m => !m.empty)

/-- The source stream ends here: nothing is left, or the next read fails, or it
stores an empty frame. -/
def StreamEnds : List (Bool × Mat) → Prop
  | [] => True
  | (ok, frame) :: _ => ok = false ∨ frame.empty = true

/-- A source stream that yields exactly `frames`, each by a successful read, and then
what `rest` says. -/
def yields (frames : List Mat) (rest : List (Bool × Mat)) : List (Bool × Mat) :=
  frames.map (fun frame => (true, frame)) ++ rest

/-! ## A concrete source and sink, used to instantiate the theorems -/

/-- A one-pixel frame holding `v`. -/
def sampleFrame (v : Nat) : Mat := { rows := 1, cols := 1, data := [v] }

/-- A world in which every source opens as a 1x1 stream at rate 25 that reports
`count` frames and yields `stream`, and every sink opens. -/
def sampleEnv (count : Int) (stream : List (Bool × Mat)) : Env :=
  { capture := fun _ =>
      { opened := true, width := 1, height := 1, fps := 25, frame_count := count,
        fourcc := 0, stream := stream },
    writerOpens := fun _ => true }

/-- A fresh processor after `openInput` and `openOutput` in `sampleEnv count stream`. -/
def sampleReady (count : Int) (stream : List (Bool × Mat)) : VideoProcessor :=
  ((VideoProcessor.new.openInput (sampleEnv count stream) "input.mp4").2.openOutput
    (sampleEnv count stream) "output.mp4" 0 0 60).2

/-- A transform that drops the frame of index 1 and passes every other frame on. -/
def dropSecond (frame : Mat) (frame_number : Int) : Mat :=
  if frame_number = 1 then Mat.mk0 else frame

/-- The processor after one successful run over a one-frame source followed by
`close()`: `openInput`, `openOutput`, `process`, `close` from a fresh processor. -/
def closedAfterRun : VideoProcessor :=
  ((sampleReady 1 (yields [sampleFrame 1] [])).process none false (fun _ => 0)).state.close

/-- A world whose sources open and report the geometry `width` x `height`, rate 25
and 10 frames. -/
def geometryEnv (width height : Int) : Env :=
  { capture := fun _ =>
      { opened := true, width := width, height := height, fps := 25, frame_count := 10,
        fourcc := 0, stream := [] },
    writerOpens := fun _ => true }

/-! ## Further accessors and sequences of pool calls -/

/-- The accessor `getFrameWidth()`. -/
def VideoProcessor.getFrameWidth (s : VideoProcessor) : Int := s.frame_width_

/-- The accessor `getFrameHeight()`. -/
def VideoProcessor.getFrameHeight (s : VideoProcessor) : Int := s.frame_height_

/-- The accessor `getFPS()`. -/
def VideoProcessor.getFPS (s : VideoProcessor) : Double := s.fps_

/-- The accessor `getFourCC()`. -/
def VideoProcessor.getFourCC (s : VideoProcessor) : Int := s.fourcc_

/-- The pool after `release` was called on each frame of the list, from left to right. -/
def FrameBuffer.releaseAll (b : FrameBuffer) : List Mat → FrameBuffer
  | [] => b
  | frame :: frames => (b.release frame).releaseAll frames

/-- The frames returned by `n` calls of `acquire` in a row, in call order, and the
pool afterwards. -/
def FrameBuffer.acquireN (b : FrameBuffer) : Nat → List Mat × FrameBuffer
  | 0 => ([], b)
  | n + 1 => (b.acquire.1 :: (b.acquire.2.acquireN n).1, (b.acquire.2.acquireN n).2)

/-- A world whose sources open as a 1x1 stream that reports the rate `fps`. -/
def rateEnv (fps : Double) : Env :=
  { capture := fun _ =>
      { opened := true, width := 1, height := 1, fps := fps, frame_count := 10,
        fourcc := 0, stream := [] },
    writerOpens := fun _ => true }

/-- A world whose sources open as a 640x480 stream at rate 25 with codec tag 828601953,
and whose sinks open exactly for the rate 25. -/
def strictSinkEnv : Env :=
  { capture := fun _ =>
      { opened := true, width := 640, height := 480, fps := 25, frame_count := 10,
        fourcc := 828601953, stream := [] },
    writerOpens := fun req => decide (req.fps = 25) }

/-- The processor states that the public interface can produce: the constructor,
then any calls of `openInput`, `openOutput`, `process` and `close`. -/
inductive Reachable : VideoProcessor → Prop where
  | new : Reachable VideoProcessor.new
  | openInput (s : VideoProcessor) (env : Env) (input_path : String) :
      Reachable s → Reachable (s.openInput env input_path).2
  | openOutput (s : VideoProcessor) (env : Env) (output_path : String) (fourcc : Int)
      (fps : Double) (quality : Int) :
      Reachable s → Reachable (s.openOutput env output_path fourcc fps quality).2
  | process (s : VideoProcessor) (callback : Option (Mat → Int → Mat))
      (progress_callback : Bool) (now : Nat → ℚ) :
      Reachable s → Reachable (s.process callback progress_callback now).state
  | close (s : VideoProcessor) : Reachable s → Reachable s.close

/-- The frames `sampleFrame 0`, ..., `sampleFrame (n - 1)`. -/
def sampleFrames (n : Nat) : List Mat := (List.range n).map sampleFrame

/-! ## Reference functions used to state the events of a call of `process` -/

/-- The snapshots the progress callback was called with, in call order. -/
def progressCalls (trace : List Event) : List ProcessingStats :=
  trace.filterMap (fun e => match e with
    | Event.progress st => some st
    | _ => none)

/-- The arguments the transform was called with, in call order. -/
def transformCalls (trace : List Event) : List (Mat × Int) :=
  trace.filterMap (fun e => match e with
    | Event.transform frame i => some (frame, i)
    | _ => none)

/-- The results of the reads of the source, in call order. -/
def readEvents (trace : List Event) : List (Bool × Mat) :=
  trace.filterMap (fun e => match e with
    | Event.read ok frame => some (ok, frame)
    | _ => none)

/-- The snapshot expected at the invocation number `j` (counted from 0) of the progress
callback over the frames `frames`: `total` is the cached source total,
`processed_frames` counts the non-empty results among the first `30 * (j + 1)` frames,
`fps` has not been computed yet, `elapsed_seconds` is the clock reading number `j + 1`
minus the first one. -/
def progressSnapshot (callback : Option (Mat → Int → Mat)) (now : Nat → ℚ) (total : Int)
    (frames : List Mat) (j : Nat) : ProcessingStats :=
  { total_frames := total,
    processed_frames := ((emitted callback (frames.take (30 * (j + 1))) 0).length : Int),
    fps := 0,
    elapsed_seconds := now (j + 1) - now 0 }

/-- The events expected for the iteration that handles the frame of index `i`: its
read, the call of the transform when one is supplied, the write when the result is not
empty and, when a progress callback is supplied and `i + 1` is a multiple of 30, the
call of the progress callback. -/
def iterationEvents (callback : Option (Mat → Int → Mat)) (progress_callback : Bool)
    (now : Nat → ℚ) (total : Int) (frames : List Mat) (i : Nat) : List Event :=
  match frames[i]? with
  | none => []
  | some frame =>
    [Event.read true frame] ++
    (match callback with
      | some _ => [Event.transform frame (i : Int)]
      | none => []) ++
    (if (applyCallback callback frame (i : Int)).empty then []
      else [Event.write (applyCallback callback frame (i : Int))]) ++
    (if progress_callback && (i + 1) % 30 == 0 then
      [Event.progress (progressSnapshot callback now total frames ((i + 1) / 30 - 1))]
      else [])

/-- The events expected for the iterations of the frames of index `0` to `n - 1`. -/
def loopTrace (callback : Option (Mat → Int → Mat)) (progress_callback : Bool)
    (now : Nat → ℚ) (total : Int) (frames : List Mat) (n : Nat) : List Event :=
  (List.range n).flatMap (iterationEvents callback progress_callback now total frames)

/-- The read that ends the loop: the next entry of the stream, or a failed read when
the stream is used up. -/
def lastRead : List (Bool × Mat) → Event
  | [] => Event.read false Mat.mk0
  | (ok, frame) :: _ => Event.read ok frame

/-- The loop invariant of `process` before the iteration of the frame of index `n`. -/
structure LoopInv (callback : Option (Mat → Int → Mat)) (progress_callback : Bool)
    (now : Nat → ℚ) (total : Int) (frames : List Mat) (n : Nat) (st : LoopState) : Prop where
  frame_number : st.frame_number = (n : Int)
  processed :
    st.stats_.processed_frames = ((emitted callback (frames.take n) 0).length : Int)
  total_frames : st.stats_.total_frames = total
  fps : st.stats_.fps = 0
  ticks : st.ticks = 1 + (if progress_callback then n / 30 else 0)
  trace : st.trace = loopTrace callback progress_callback now total frames n

/-- The frames handed to the sink, in call order. -/
def writeEvents (trace : List Event) : List Mat :=
  trace.filterMap (fun e => match e with
    | Event.write frame => some frame
    | _ => none)

/-! ## Theorems -/

theorem FrameBuffer.step_capacity (b : FrameBuffer) (op : PoolOp) :
    (b.step op).capacity_ = b.capacity_ := by
  cases op with
  | acquire =>
    simp only [FrameBuffer.step, FrameBuffer.acquire]
    cases b.pool_ <;> rfl
  | release frame =>
    simp only [FrameBuffer.step, FrameBuffer.release]
    split
    · rfl
    · split <;> rfl
  | clear => rfl

theorem FrameBuffer.step_bounded (b : FrameBuffer) (op : PoolOp)
    (h : b.pool_.length ≤ b.capacity_) :
    (b.step op).pool_.length ≤ (b.step op).capacity_ := by
  cases op with
  | acquire =>
    simp only [FrameBuffer.step, FrameBuffer.acquire]
    cases hp : b.pool_ with
    | nil => simp [hp] at h ⊢
    | cons x xs =>
      simp only [hp, List.length_cons] at h ⊢
      omega
  | release frame =>
    simp only [FrameBuffer.step, FrameBuffer.release]
    split
    · exact h
    · split
      · simp only [List.length_append, List.length_singleton]
        omega
      · exact h
  | clear => simp [FrameBuffer.step, FrameBuffer.clear]

theorem FrameBuffer.run_capacity (ops : List PoolOp) (b : FrameBuffer) :
    (b.run ops).capacity_ = b.capacity_ := by
  induction ops generalizing b with
  | nil => rfl
  | cons op ops ih =>
    simp only [FrameBuffer.run]
    rw [ih, FrameBuffer.step_capacity]

theorem FrameBuffer.run_bounded (ops : List PoolOp) (b : FrameBuffer)
    (h : b.pool_.length ≤ b.capacity_) :
    (b.run ops).pool_.length ≤ (b.run ops).capacity_ := by
  induction ops generalizing b with
  | nil => exact h
  | cons op ops ih =>
    simp only [FrameBuffer.run]
    exact ih _ (FrameBuffer.step_bounded b op h)

/-- C1: for every capacity `C` and every sequence of acquire, release and clear
calls on a pool constructed with capacity `C`, `available()` is at most `C` after
every call of the sequence (after each prefix `ops.take k`); with capacity 0 the pool
is empty after every call. -/
theorem C1_pool_occupancy_bounded (C : Nat) (ops : List PoolOp) (k : Nat) :
    ((FrameBuffer.new C).run (ops.take k)).available ≤ C ∧
    ((FrameBuffer.new 0).run (ops.take k)).pool_ = [] := by
  have hb : ∀ c, ((FrameBuffer.new c).run (ops.take k)).pool_.length ≤ c := by
    intro c
    have := FrameBuffer.run_bounded (ops.take k) (FrameBuffer.new c)
      (by simp [FrameBuffer.new])
    rw [FrameBuffer.run_capacity] at this
    exact this
  exact ⟨hb C, List.length_eq_zero.mp (Nat.le_zero.mp (hb 0))⟩

/-! ### One iteration of the loop -/

theorem processFrame_writer (callback : Option (Mat → Int → Mat)) (pcb : Bool) (now : Nat → ℚ)
    (t0 : ℚ) (frame : Mat) (st : LoopState) :
    (processFrame callback pcb now t0 frame st).video_writer_ =
      if (applyCallback callback frame st.frame_number).empty then st.video_writer_
      else st.video_writer_.write (applyCallback callback frame st.frame_number) := by
  unfold processFrame
  by_cases h : (applyCallback callback frame st.frame_number).empty = true <;>
    cases callback <;> simp only [h] <;> split_ifs <;> simp_all

theorem processFrame_processed (callback : Option (Mat → Int → Mat)) (pcb : Bool)
    (now : Nat → ℚ) (t0 : ℚ) (frame : Mat) (st : LoopState) :
    (processFrame callback pcb now t0 frame st).stats_.processed_frames =
      st.stats_.processed_frames +
        (if (applyCallback callback frame st.frame_number).empty then 0 else 1) := by
  unfold processFrame
  by_cases h : (applyCallback callback frame st.frame_number).empty = true <;>
    cases callback <;> simp only [h] <;> split_ifs <;> simp_all

theorem processFrame_total (callback : Option (Mat → Int → Mat)) (pcb : Bool)
    (now : Nat → ℚ) (t0 : ℚ) (frame : Mat) (st : LoopState) :
    (processFrame callback pcb now t0 frame st).stats_.total_frames =
      st.stats_.total_frames := by
  unfold processFrame
  by_cases h : (applyCallback callback frame st.frame_number).empty = true <;>
    cases callback <;> simp only [h] <;> split_ifs <;> simp_all

theorem processFrame_frame_number (callback : Option (Mat → Int → Mat)) (pcb : Bool)
    (now : Nat → ℚ) (t0 : ℚ) (frame : Mat) (st : LoopState) :
    (processFrame callback pcb now t0 frame st).frame_number = st.frame_number + 1 := by
  unfold processFrame
  by_cases h : (applyCallback callback frame st.frame_number).empty = true <;>
    cases callback <;> simp only [h] <;> split_ifs <;> simp_all

/-! ### The loop as a whole -/

theorem emitted_cons (callback : Option (Mat → Int → Mat)) (frame : Mat) (frames : List Mat)
    (i : Int) :
    emitted callback (frame :: frames) i =
      if (applyCallback callback frame i).empty then emitted callback frames (i + 1)
      else applyCallback callback frame i :: emitted callback frames (i + 1) := by
  unfold emitted
  simp only [outputs, List.filter_cons]
  cases (applyCallback callback frame i).empty <;> simp

theorem processLoop_spec (callback : Option (Mat → Int → Mat)) (pcb : Bool) (now : Nat → ℚ)
    (t0 : ℚ) (stream : List (Bool × Mat)) (st : LoopState)
    (h : st.video_writer_.opened = true) :
    (processLoop callback pcb now t0 stream st).video_writer_.opened = true ∧
    (processLoop callback pcb now t0 stream st).video_writer_.written =
      st.video_writer_.written ++ emitted callback (framesRead stream) st.frame_number ∧
    (processLoop callback pcb now t0 stream st).stats_.processed_frames =
      st.stats_.processed_frames +
        ((emitted callback (framesRead stream) st.frame_number).length : Int) ∧
    (processLoop callback pcb now t0 stream st).stats_.total_frames =
      st.stats_.total_frames := by
  induction stream generalizing st with
  | nil => simp [processLoop, framesRead, emitted, outputs, h]
  | cons p rest ih =>
    obtain ⟨ok, frame⟩ := p
    cases ok with
    | false => simp [processLoop, framesRead, emitted, outputs, h]
    | true =>
      by_cases he : frame.empty = true
      · simp [processLoop, framesRead, emitted, outputs, h, he]
      · have hw : (processFrame callback pcb now t0 frame
            { st with pending := rest,
                      trace := st.trace ++ [Event.read true frame] }).video_writer_.opened
            = true := by
          rw [processFrame_writer]
          split
          · exact h
          · simp [VideoWriter.write, h]
        have := ih _ hw
        simp only [processLoop, framesRead, he, Bool.not_true, Bool.false_eq_true, if_false,
          Bool.not_false, Bool.and_self, if_true, emitted_cons]
        rw [processFrame_writer, processFrame_processed, processFrame_total,
          processFrame_frame_number] at this
        obtain ⟨h1, h2, h3, h4⟩ := this
        refine ⟨h1, ?_, ?_, h4⟩
        · rw [h2]
          by_cases hc : (applyCallback callback frame st.frame_number).empty = true
          · simp [hc]
          · simp [hc, VideoWriter.write, h]
        · rw [h3]
          by_cases hc : (applyCallback callback frame st.frame_number).empty = true
          · simp [hc]
          · simp [hc]
            omega

/-! ### The method `process` -/

theorem process_not_opened (s : VideoProcessor) (callback : Option (Mat → Int → Mat))
    (pcb : Bool) (now : Nat → ℚ)
    (h : s.video_capture_.opened = false ∨ s.video_writer_.opened = false) :
    s.process callback pcb now = { result := false, state := s, trace := [] } := by
  unfold VideoProcessor.process
  rcases h with h | h
  · simp [h]
  · cases hc : s.video_capture_.opened <;> simp [h]

theorem process_opened (s : VideoProcessor) (callback : Option (Mat → Int → Mat))
    (pcb : Bool) (now : Nat → ℚ)
    (hc : s.video_capture_.opened = true) (hw : s.video_writer_.opened = true) :
    (s.process callback pcb now).state.video_writer_.written =
      s.video_writer_.written ++ emitted callback (framesRead s.video_capture_.stream) 0 ∧
    (s.process callback pcb now).state.stats_.processed_frames =
      ((emitted callback (framesRead s.video_capture_.stream) 0).length : Int) ∧
    (s.process callback pcb now).state.stats_.total_frames = s.total_frames_ ∧
    (s.process callback pcb now).result =
      decide (0 < (s.process callback pcb now).state.stats_.processed_frames) ∧
    (s.process callback pcb now).state.video_writer_.opened = true := by
  obtain ⟨h1, h2, h3, h4⟩ := processLoop_spec callback pcb now (now 0) s.video_capture_.stream
    { video_writer_ := s.video_writer_, frame_buffer_ := s.frame_buffer_,
      stats_ := { ProcessingStats.new with total_frames := s.total_frames_ },
      frame_number := 0, ticks := 1, trace := [], pending := s.video_capture_.stream } hw
  simp only [ProcessingStats.new, zero_add] at h2 h3 h4
  unfold VideoProcessor.process
  simp only [hc, hw, Bool.not_true, Bool.false_eq_true, if_false, ProcessingStats.new]
  refine ⟨h2, ?_, ?_, ?_, h1⟩
  · split <;> exact h3
  · split <;> exact h4
  · trivial

/-! ### Sources that yield a given list of frames -/

theorem framesRead_yields (frames : List Mat) (rest : List (Bool × Mat))
    (hne : ∀ f ∈ frames, f.empty = false) (hend : StreamEnds rest) :
    framesRead (yields frames rest) = frames := by
  induction frames with
  | nil =>
    cases rest with
    | nil => rfl
    | cons p tl =>
      obtain ⟨ok, frame⟩ := p
      rcases hend with h | h <;> simp [yields, framesRead, h]
  | cons f fs ih =>
    have hf : f.empty = false := hne f (List.mem_cons_self f fs)
    have := ih (fun g hg => hne g (List.mem_cons_of_mem f hg))
    simp only [yields, List.map_cons, List.cons_append, framesRead, hf, Bool.not_false,
      Bool.and_self, if_true] at this ⊢
    exact congrArg (List.cons f) this

theorem emitted_none (frames : List Mat) (i : Int) (hne : ∀ f ∈ frames, f.empty = false) :
    emitted none frames i = frames := by
  induction frames generalizing i with
  | nil => rfl
  | cons f fs ih =>
    have hf : f.empty = false := hne f (List.mem_cons_self f fs)
    rw [emitted_cons, ih (i + 1) (fun g hg => hne g (List.mem_cons_of_mem f hg))]
    simp [applyCallback, hf]

theorem emitted_nonempty (callback : Option (Mat → Int → Mat)) (frames : List Mat) (i : Int) :
    ∀ m ∈ emitted callback frames i, m.empty = false := by
  intro m hm
  unfold emitted at hm
  simpa using (List.mem_filter.mp hm).2

/-- C2: for every source that yields `N >= 1` non-empty frames and then ends, with
source and sink opened and whatever the statistics held before, `process` without a
transform appends exactly these frames to the sink, in source order, leaves
`processed_frames == N` and `total_frames` equal to the cached source total, and
returns true. -/
theorem C2_no_transform_copies_source (s : VideoProcessor) (frames : List Mat)
    (rest : List (Bool × Mat)) (pcb : Bool) (now : Nat → ℚ)
    (hc : s.video_capture_.opened = true) (hw : s.video_writer_.opened = true)
    (hN : 1 ≤ frames.length) (hne : ∀ f ∈ frames, f.empty = false)
    (hs : s.video_capture_.stream = yields frames rest) (hend : StreamEnds rest) :
    (s.process none pcb now).state.video_writer_.written = s.video_writer_.written ++ frames ∧
    (s.process none pcb now).state.getStats.processed_frames = (frames.length : Int) ∧
    (s.process none pcb now).state.getStats.total_frames = s.getTotalFrames ∧
    (s.process none pcb now).result = true := by
  obtain ⟨h1, h2, h3, h4, _⟩ := process_opened s none pcb now hc hw
  rw [hs, framesRead_yields frames rest hne hend, emitted_none frames 0 hne] at h1 h2
  refine ⟨h1, h2, h3, ?_⟩
  rw [h4, h2]
  simp only [decide_eq_true_eq]
  omega

/-- C2 at a concrete source of two frames. -/
theorem C2_no_transform_copies_source_witness :
    (sampleReady 2 (yields [sampleFrame 1, sampleFrame 2] [])).video_capture_.opened = true ∧
    (sampleReady 2 (yields [sampleFrame 1, sampleFrame 2] [])).video_writer_.opened = true ∧
    ((sampleReady 2 (yields [sampleFrame 1, sampleFrame 2] [])).process none true
        (fun _ => 0)).state.video_writer_.written = [sampleFrame 1, sampleFrame 2] ∧
    ((sampleReady 2 (yields [sampleFrame 1, sampleFrame 2] [])).process none true
        (fun _ => 0)).state.getStats.processed_frames = 2 ∧
    ((sampleReady 2 (yields [sampleFrame 1, sampleFrame 2] [])).process none true
        (fun _ => 0)).result = true :=
  have h := C2_no_transform_copies_source
    (sampleReady 2 (yields [sampleFrame 1, sampleFrame 2] []))
    [sampleFrame 1, sampleFrame 2] [] true (fun _ => 0) (by decide) (by decide) (by decide)
    (by decide) (by decide) trivial
  ⟨by decide, by decide, h.1, h.2.1, h.2.2.2⟩

/-! ### A transform that drops one index -/

theorem emitted_drop_at (t : Mat → Int → Mat) (k : Nat) (frames : List Mat) (n : Nat)
    (ht : ∀ i (hi : i < frames.length),
      ((t frames[i] ((n + i : Nat) : Int)).empty = true ↔ n + i = k)) :
    emitted (some t) frames (n : Int) =
      ((frames.enumFrom n).filter (fun p => decide (p.1 ≠ k))).map
        (fun p => t p.2 (p.1 : Int)) := by
  induction frames generalizing n with
  | nil => rfl
  | cons f fs ih =>
    have h0 := ht 0 (by simp)
    simp only [List.getElem_cons_zero, Nat.add_zero] at h0
    have htl : ∀ i (hi : i < fs.length),
        ((t fs[i] ((n + 1 + i : Nat) : Int)).empty = true ↔ n + 1 + i = k) := by
      intro i hi
      have := ht (i + 1) (by simp; omega)
      simp only [List.getElem_cons_succ] at this
      rw [show n + 1 + i = n + (i + 1) by omega]
      exact this
    have := ih (n + 1) htl
    rw [emitted_cons]
    simp only [applyCallback, List.enumFrom_cons, List.filter_cons]
    by_cases hk : n = k
    · subst hk
      have he : (t f (n : Int)).empty = true := h0.mpr rfl
      push_cast at this
      simpa [he] using this
    · have he : (t f (n : Int)).empty = false := by
        cases h : (t f (n : Int)).empty
        · rfl
        · exact absurd (h0.mp h) hk
      push_cast at this
      simpa [he, hk] using this

theorem filter_ne_length_of_lt (frames : List Mat) (n k : Nat) (h : k < n) :
    ((frames.enumFrom n).filter (fun p => decide (p.1 ≠ k))).length = frames.length := by
  induction frames generalizing n with
  | nil => rfl
  | cons f fs ih =>
    have hk : n ≠ k := by omega
    simpa [List.enumFrom_cons, List.filter_cons, hk] using ih (n + 1) (by omega)

theorem filter_ne_length (frames : List Mat) (n k : Nat) (h1 : n ≤ k)
    (h2 : k < n + frames.length) :
    ((frames.enumFrom n).filter (fun p => decide (p.1 ≠ k))).length = frames.length - 1 := by
  induction frames generalizing n with
  | nil => simp at h2; omega
  | cons f fs ih =>
    by_cases hk : n = k
    · simpa [List.enumFrom_cons, List.filter_cons, hk] using
        filter_ne_length_of_lt fs (k + 1) k (by omega)
    · have h3 : k < n + 1 + fs.length := by simp at h2; omega
      have := ih (n + 1) (by omega) h3
      simp only [List.enumFrom_cons, List.filter_cons, ne_eq, hk, not_false_eq_true,
        decide_True, if_true, List.length_cons, this]
      omega

/-- C3: for a source of `N >= 1` non-empty frames and a transform whose result is
empty exactly at index `k < N`, `process` appends to the sink the transform results
of all indices but `k`, in index order: exactly `N - 1` frames, and it ends with
`processed_frames == N - 1`. -/
theorem C3_transform_drops_one_frame (s : VideoProcessor) (frames : List Mat)
    (rest : List (Bool × Mat)) (t : Mat → Int → Mat) (k : Nat) (pcb : Bool) (now : Nat → ℚ)
    (hc : s.video_capture_.opened = true) (hw : s.video_writer_.opened = true)
    (hk : k < frames.length) (hne : ∀ f ∈ frames, f.empty = false)
    (hs : s.video_capture_.stream = yields frames rest) (hend : StreamEnds rest)
    (ht : ∀ i (hi : i < frames.length), ((t frames[i] (i : Int)).empty = true ↔ i = k)) :
    (s.process (some t) pcb now).state.video_writer_.written =
      s.video_writer_.written ++
        (frames.enum.filter (fun p => decide (p.1 ≠ k))).map (fun p => t p.2 (p.1 : Int)) ∧
    ((frames.enum.filter (fun p => decide (p.1 ≠ k))).map
        (fun p => t p.2 (p.1 : Int))).length = frames.length - 1 ∧
    (s.process (some t) pcb now).state.getStats.processed_frames =
      (frames.length : Int) - 1 := by
  obtain ⟨h1, h2, _, _, _⟩ := process_opened s (some t) pcb now hc hw
  have he : emitted (some t) frames ((0 : Nat) : Int) =
      ((frames.enumFrom 0).filter (fun p => decide (p.1 ≠ k))).map
        (fun p => t p.2 (p.1 : Int)) :=
    emitted_drop_at t k frames 0 (by simpa using ht)
  have hl := filter_ne_length frames 0 k (Nat.zero_le k) (by omega)
  rw [hs, framesRead_yields frames rest hne hend] at h1 h2
  simp only [Nat.cast_zero] at he
  rw [he] at h1 h2
  refine ⟨h1, ?_, ?_⟩
  · rw [List.length_map]
    exact hl
  · rw [VideoProcessor.getStats, h2, List.length_map, hl]
    omega

/-- C3 at a concrete source of three frames whose second frame is dropped. -/
theorem C3_transform_drops_one_frame_witness :
    (sampleReady 3 (yields [sampleFrame 1, sampleFrame 2, sampleFrame 3] [])).video_capture_.opened
      = true ∧
    (sampleReady 3 (yields [sampleFrame 1, sampleFrame 2, sampleFrame 3] [])).video_writer_.opened
      = true ∧
    ((sampleReady 3 (yields [sampleFrame 1, sampleFrame 2, sampleFrame 3] [])).process
        (some dropSecond) false (fun _ => 0)).state.video_writer_.written =
      [sampleFrame 1, sampleFrame 3] ∧
    ((sampleReady 3 (yields [sampleFrame 1, sampleFrame 2, sampleFrame 3] [])).process
        (some dropSecond) false (fun _ => 0)).state.getStats.processed_frames = 2 :=
  have h := C3_transform_drops_one_frame
    (sampleReady 3 (yields [sampleFrame 1, sampleFrame 2, sampleFrame 3] []))
    [sampleFrame 1, sampleFrame 2, sampleFrame 3] [] dropSecond 1 false (fun _ => 0)
    (by decide) (by decide) (by decide) (by decide) (by decide) trivial (by decide)
  ⟨by decide, by decide, h.1, h.2.2⟩

/-! ### The identity transform -/

theorem emitted_identity (frames : List Mat) (i : Int) :
    emitted (some (fun frame _ => frame)) frames i = emitted none frames i := by
  induction frames generalizing i with
  | nil => rfl
  | cons f fs ih => rw [emitted_cons, emitted_cons, ih]; rfl

theorem emitted_none_framesRead (stream : List (Bool × Mat)) (i : Int) :
    emitted none (framesRead stream) i = framesRead stream := by
  induction stream generalizing i with
  | nil => rfl
  | cons p rest ih =>
    obtain ⟨ok, frame⟩ := p
    by_cases h : (ok && !frame.empty) = true
    · have hf : frame.empty = false := by
        cases hfe : frame.empty <;> simp_all
      rw [framesRead, if_pos h, emitted_cons, ih]
      simp [applyCallback, hf]
    · simp only [framesRead, h, if_false]
      rfl

/-- C4: for every processor state, `process` with the identity transform gives the
same sink sequence, the same `processed_frames` and the same return value as
`process` without a transform; and when source and sink are opened that sink
sequence is what the sink held before followed by the frames read from the source,
frame for frame. -/
theorem C4_identity_transform_is_copy (s : VideoProcessor) (pcb : Bool) (now : Nat → ℚ) :
    (s.process (some (fun frame _ => frame)) pcb now).state.video_writer_.written =
      (s.process none pcb now).state.video_writer_.written ∧
    (s.process (some (fun frame _ => frame)) pcb now).state.getStats.processed_frames =
      (s.process none pcb now).state.getStats.processed_frames ∧
    (s.process (some (fun frame _ => frame)) pcb now).result =
      (s.process none pcb now).result ∧
    (s.video_capture_.opened = true → s.video_writer_.opened = true →
      (s.process (some (fun frame _ => frame)) pcb now).state.video_writer_.written =
        s.video_writer_.written ++ framesRead s.video_capture_.stream) := by
  by_cases hc : s.video_capture_.opened = true
  · by_cases hw : s.video_writer_.opened = true
    · obtain ⟨a1, a2, _, a4, _⟩ :=
        process_opened s (some (fun frame _ => frame)) pcb now hc hw
      obtain ⟨b1, b2, _, b4, _⟩ := process_opened s none pcb now hc hw
      rw [emitted_identity] at a1 a2
      have hp : (s.process (some (fun frame _ => frame)) pcb now).state.stats_.processed_frames
          = (s.process none pcb now).state.stats_.processed_frames := by rw [a2, b2]
      refine ⟨by rw [a1, b1], hp, by rw [a4, b4, hp], ?_⟩
      intro _ _
      rw [a1, emitted_none_framesRead]
    · have hn : s.video_capture_.opened = false ∨ s.video_writer_.opened = false :=
        Or.inr (by simpa using hw)
      rw [process_not_opened s _ pcb now hn, process_not_opened s none pcb now hn]
      exact ⟨rfl, rfl, rfl, fun _ h => absurd h hw⟩
  · have hn : s.video_capture_.opened = false ∨ s.video_writer_.opened = false :=
      Or.inl (by simpa using hc)
    rw [process_not_opened s _ pcb now hn, process_not_opened s none pcb now hn]
    exact ⟨rfl, rfl, rfl, fun h _ => absurd h hc⟩

/-- C4 at a concrete source whose third read fails. -/
theorem C4_identity_transform_is_copy_witness :
    (sampleReady 0 [(true, sampleFrame 5), (true, sampleFrame 6), (false, Mat.mk0),
        (true, sampleFrame 7)]).video_capture_.opened = true ∧
    ((sampleReady 0 [(true, sampleFrame 5), (true, sampleFrame 6), (false, Mat.mk0),
        (true, sampleFrame 7)]).process (some (fun frame _ => frame)) false
        (fun _ => 0)).state.video_writer_.written = [sampleFrame 5, sampleFrame 6] :=
  ⟨by decide,
   (C4_identity_transform_is_copy
      (sampleReady 0 [(true, sampleFrame 5), (true, sampleFrame 6), (false, Mat.mk0),
        (true, sampleFrame 7)]) false (fun _ => 0)).2.2.2 (by decide) (by decide)⟩

/-! ### Success and failure of `process` -/

theorem process_result_of_no_frame (s : VideoProcessor)
    (callback : Option (Mat → Int → Mat)) (pcb : Bool) (now : Nat → ℚ)
    (hc : s.video_capture_.opened = true) (hw : s.video_writer_.opened = true)
    (hfr : framesRead s.video_capture_.stream = []) :
    (s.process callback pcb now).result = false := by
  obtain ⟨_, h2, _, h4, _⟩ := process_opened s callback pcb now hc hw
  rw [hfr] at h2
  have h0 : (s.process callback pcb now).state.stats_.processed_frames = 0 := by
    simpa [emitted, outputs] using h2
  rw [h4, h0]
  rfl

/-- C5: with source and sink opened, `process` returns true iff `processed_frames > 0`
at the end; `processed_frames` is the number of frames appended to the sink, all of
them non-empty; a source that yields no frame gives false with `processed_frames == 0`;
a source whose read fails after some frames gives true as soon as one of the frames
before the failure was written. -/
theorem C5_success_iff_frames_processed (s : VideoProcessor)
    (callback : Option (Mat → Int → Mat)) (pcb : Bool) (now : Nat → ℚ)
    (hc : s.video_capture_.opened = true) (hw : s.video_writer_.opened = true) :
    ((s.process callback pcb now).result = true ↔
      0 < (s.process callback pcb now).state.getStats.processed_frames) ∧
    (∃ new : List Mat,
      (s.process callback pcb now).state.video_writer_.written =
        s.video_writer_.written ++ new ∧
      (∀ m ∈ new, m.empty = false) ∧
      (s.process callback pcb now).state.getStats.processed_frames = (new.length : Int) ∧
      ((s.process callback pcb now).result = true ↔ new ≠ [])) ∧
    (StreamEnds s.video_capture_.stream →
      (s.process callback pcb now).result = false ∧
      (s.process callback pcb now).state.getStats.processed_frames = 0) ∧
    (∀ (frames : List Mat) (g : Mat) (rest : List (Bool × Mat)),
      s.video_capture_.stream = yields frames ((false, g) :: rest) →
      (∀ f ∈ frames, f.empty = false) → emitted callback frames 0 ≠ [] →
      (s.process callback pcb now).result = true) := by
  obtain ⟨h1, h2, _, h4, _⟩ := process_opened s callback pcb now hc hw
  have hiff : (s.process callback pcb now).result = true ↔
      0 < (s.process callback pcb now).state.stats_.processed_frames := by
    rw [h4]
    simp
  have hpos : ∀ l : List Mat, (0 < (l.length : Int) ↔ l ≠ []) := by
    intro l
    cases l <;> simp
  refine ⟨hiff, ⟨_, h1, emitted_nonempty _ _ _, h2, ?_⟩, ?_, ?_⟩
  · rw [hiff, h2]
    exact hpos _
  · intro hend
    have hfr : framesRead s.video_capture_.stream = [] := by
      have := framesRead_yields [] s.video_capture_.stream (by simp) hend
      simpa [yields] using this
    rw [hfr] at h2
    have h0 : (s.process callback pcb now).state.stats_.processed_frames = 0 := by
      simpa [emitted, outputs] using h2
    refine ⟨?_, h0⟩
    rw [h4, h0]
    rfl
  · intro frames g rest hs hne hem
    rw [hs, framesRead_yields frames ((false, g) :: rest) hne (Or.inl rfl)] at h2
    rw [hiff, h2]
    exact (hpos _).mpr hem

/-- C5 at a concrete source: one frame, then a failed read. -/
theorem C5_success_iff_frames_processed_witness :
    (sampleReady 0 [(true, sampleFrame 1), (false, Mat.mk0)]).video_capture_.opened = true ∧
    (sampleReady 0 [(true, sampleFrame 1), (false, Mat.mk0)]).video_writer_.opened = true ∧
    ((sampleReady 0 [(true, sampleFrame 1), (false, Mat.mk0)]).process none false
      (fun _ => 0)).result = true :=
  ⟨by decide, by decide,
   (C5_success_iff_frames_processed (sampleReady 0 [(true, sampleFrame 1), (false, Mat.mk0)])
      none false (fun _ => 0) (by decide) (by decide)).2.2.2
      [sampleFrame 1] Mat.mk0 [] (by decide) (by decide) (by decide)⟩

theorem close_capture_opened (s : VideoProcessor) : s.close.video_capture_.opened = false := by
  unfold VideoProcessor.close
  cases h : s.video_capture_.opened <;> cases h2 : s.video_writer_.opened <;>
    simp [h, h2, VideoCapture.release, VideoCapture.new]

theorem close_stats (s : VideoProcessor) : s.close.stats_ = s.stats_ := by
  unfold VideoProcessor.close
  cases h : s.video_capture_.opened <;> cases h2 : s.video_writer_.opened <;> simp [h, h2]

/-- C6, as stated, fails: after `openInput`, `openOutput`, a successful `process` of one
frame and `close()`, a second `process` returns false while `getStats()` still shows
`processed_frames == 1`. -/
theorem C6_counterexample :
    ((sampleReady 1 (yields [sampleFrame 1] [])).process none false (fun _ => 0)).result
      = true ∧
    (closedAfterRun.process none false (fun _ => 0)).result = false ∧
    (closedAfterRun.process none false (fun _ => 0)).state.getStats.processed_frames = 1 := by
  have h := process_opened (sampleReady 1 (yields [sampleFrame 1] [])) none false
    (fun _ => 0) (by decide) (by decide)
  have hp : ((sampleReady 1 (yields [sampleFrame 1] [])).process none false
      (fun _ => 0)).state.stats_.processed_frames = 1 := by
    rw [h.2.1]
    decide
  have hn := process_not_opened closedAfterRun none false (fun _ => 0)
    (Or.inl (close_capture_opened _))
  refine ⟨?_, ?_, ?_⟩
  · rw [h.2.2.2.1, hp]
    decide
  · rw [hn]
  · rw [hn]
    show closedAfterRun.stats_.processed_frames = 1
    unfold closedAfterRun
    rw [close_stats, hp]

/-- C6, amended: a call of `process` that returns false with source and sink opened
leaves `processed_frames == 0`; a call that returns false because the source or the
sink is not opened leaves the statistics of the previous call untouched. -/
theorem C6_false_result_statistics (s : VideoProcessor)
    (callback : Option (Mat → Int → Mat)) (pcb : Bool) (now : Nat → ℚ)
    (hf : (s.process callback pcb now).result = false) :
    (s.video_capture_.opened = true → s.video_writer_.opened = true →
      (s.process callback pcb now).state.getStats.processed_frames = 0) ∧
    (s.video_capture_.opened = false ∨ s.video_writer_.opened = false →
      (s.process callback pcb now).state.getStats = s.getStats) := by
  constructor
  · intro hc hw
    obtain ⟨_, h2, _, h4, _⟩ := process_opened s callback pcb now hc hw
    rw [h4] at hf
    have hle : ¬ 0 < (s.process callback pcb now).state.stats_.processed_frames := by
      simpa using hf
    have hge : 0 ≤ (s.process callback pcb now).state.stats_.processed_frames := by
      rw [h2]
      exact Int.natCast_nonneg _
    show (s.process callback pcb now).state.stats_.processed_frames = 0
    omega
  · intro hn
    rw [process_not_opened s callback pcb now hn]

/-- C6 amended, at a source without frames (both ends opened) and at a fresh processor. -/
theorem C6_false_result_statistics_witness :
    ((sampleReady 0 []).process none false (fun _ => 0)).result = false ∧
    (VideoProcessor.new.process none false (fun _ => 0)).result = false ∧
    ((sampleReady 0 []).process none false (fun _ => 0)).state.getStats.processed_frames = 0 ∧
    (VideoProcessor.new.process none false (fun _ => 0)).state.getStats =
      VideoProcessor.new.getStats :=
  ⟨process_result_of_no_frame (sampleReady 0 []) none false (fun _ => 0)
      (by decide) (by decide) (by decide),
   by decide,
   (C6_false_result_statistics (sampleReady 0 []) none false (fun _ => 0)
      (process_result_of_no_frame (sampleReady 0 []) none false (fun _ => 0)
        (by decide) (by decide) (by decide))).1 (by decide) (by decide),
   (C6_false_result_statistics VideoProcessor.new none false (fun _ => 0) (by decide)).2
      (Or.inl (by decide))⟩

/-! ### Calls made out of order -/

/-- C7: when the source or the sink is not opened, `process` returns false and leaves
the whole processor as it was (no frame is taken from the source stream, nothing is
appended to the sink), and the call has no event: no read, no call of the transform
or of the progress callback, no write. -/
theorem C7_process_requires_both_opened (s : VideoProcessor)
    (callback : Option (Mat → Int → Mat)) (pcb : Bool) (now : Nat → ℚ)
    (h : s.video_capture_.opened = false ∨ s.video_writer_.opened = false) :
    (s.process callback pcb now).result = false ∧
    (s.process callback pcb now).state = s ∧
    (s.process callback pcb now).trace = [] := by
  rw [process_not_opened s callback pcb now h]
  exact ⟨rfl, rfl, rfl⟩

/-- C7 at a fresh processor, with a transform and a progress callback supplied. -/
theorem C7_process_requires_both_opened_witness :
    VideoProcessor.new.video_capture_.opened = false ∧
    (VideoProcessor.new.process (some dropSecond) true (fun _ => 0)).result = false ∧
    (VideoProcessor.new.process (some dropSecond) true (fun _ => 0)).state =
      VideoProcessor.new ∧
    (VideoProcessor.new.process (some dropSecond) true (fun _ => 0)).trace = [] :=
  ⟨by decide,
   C7_process_requires_both_opened VideoProcessor.new (some dropSecond) true (fun _ => 0)
     (Or.inl (by decide))⟩

theorem openOutput_not_opened (s : VideoProcessor) (env : Env) (output_path : String)
    (fourcc : Int) (fps : Double) (quality : Int) (h : s.video_capture_.opened = false) :
    s.openOutput env output_path fourcc fps quality = (false, s) := by
  unfold VideoProcessor.openOutput
  simp [h]

/-- C8: when the source is not opened, `openOutput` returns false for every path,
codec, rate and quality and leaves the processor unchanged: the sink receives no
`open` request and its opened/closed state is what it was. -/
theorem C8_openOutput_requires_input (s : VideoProcessor) (env : Env) (output_path : String)
    (fourcc : Int) (fps : Double) (quality : Int) (h : s.video_capture_.opened = false) :
    (s.openOutput env output_path fourcc fps quality).1 = false ∧
    (s.openOutput env output_path fourcc fps quality).2 = s ∧
    (s.openOutput env output_path fourcc fps quality).2.video_writer_.opened =
      s.video_writer_.opened ∧
    (s.openOutput env output_path fourcc fps quality).2.video_writer_.request =
      s.video_writer_.request := by
  rw [openOutput_not_opened s env output_path fourcc fps quality h]
  exact ⟨rfl, rfl, rfl, rfl⟩

/-- C8 at a fresh processor and at a processor closed after a run, in a world where
every sink would open. -/
theorem C8_openOutput_requires_input_witness :
    VideoProcessor.new.video_capture_.opened = false ∧
    closedAfterRun.video_capture_.opened = false ∧
    (VideoProcessor.new.openOutput (sampleEnv 0 []) "output.mp4" 0 0 60).1 = false ∧
    (closedAfterRun.openOutput (sampleEnv 0 []) "output.mp4" 7 30 60).1 = false :=
  ⟨by decide, close_capture_opened _,
   (C8_openOutput_requires_input VideoProcessor.new (sampleEnv 0 []) "output.mp4" 0 0 60
      (by decide)).1,
   (C8_openOutput_requires_input closedAfterRun (sampleEnv 0 []) "output.mp4" 7 30 60
      (close_capture_opened _)).1⟩

/-! ### `openInput` and the cached properties -/

theorem openInput_success (s : VideoProcessor) (env : Env) (input_path : String)
    (h : (s.openInput env input_path).1 = true) :
    (s.openInput env input_path).2.video_capture_ = env.capture input_path ∧
    (env.capture input_path).opened = true ∧
    0 < (env.capture input_path).width ∧ 0 < (env.capture input_path).height ∧
    (s.openInput env input_path).2.total_frames_ = (env.capture input_path).frame_count ∧
    (s.openInput env input_path).2.video_writer_ = s.video_writer_ := by
  unfold VideoProcessor.openInput VideoProcessor.readVideoProperties at h ⊢
  cases ho : (env.capture input_path).opened
  · simp [ho] at h
  · by_cases hg : (env.capture input_path).width ≤ 0 ∨ (env.capture input_path).height ≤ 0
    · simp [ho, hg] at h
    · have hg2 := hg
      rw [not_or] at hg2
      simp only [ho, hg, Bool.not_true, Bool.false_eq_true, if_false]
      refine ⟨?_, trivial, by omega, by omega, ?_, ?_⟩ <;> split <;> rfl

theorem openOutput_success (s : VideoProcessor) (env : Env) (output_path : String)
    (fourcc : Int) (fps : Double) (quality : Int)
    (h : (s.openOutput env output_path fourcc fps quality).1 = true) :
    (s.openOutput env output_path fourcc fps quality).2.video_capture_ = s.video_capture_ ∧
    s.video_capture_.opened = true ∧
    (s.openOutput env output_path fourcc fps quality).2.video_writer_.opened = true ∧
    (s.openOutput env output_path fourcc fps quality).2.total_frames_ = s.total_frames_ := by
  unfold VideoProcessor.openOutput at h ⊢
  cases ho : s.video_capture_.opened
  · simp [ho] at h
  · simp only [ho, Bool.not_true, Bool.false_eq_true, if_false] at h ⊢
    generalize s.video_writer_.open env _ = w at h ⊢
    cases hw : w.opened
    · simp [hw] at h
    · simp [hw]

/-- C9, as stated, fails: a source that opens with a valid geometry and reports a
total of -1 frames is accepted, and then `getTotalFrames()` returns -1 and the
statistics of the following `process` call have `total_frames == -1`. -/
theorem C9_counterexample :
    (VideoProcessor.new.openInput (sampleEnv (-1) []) "input.mp4").1 = true ∧
    ((sampleEnv (-1) []).capture "input.mp4").frame_count ≤ 0 ∧
    (VideoProcessor.new.openInput (sampleEnv (-1) []) "input.mp4").2.getTotalFrames = -1 ∧
    ((sampleReady (-1) []).process none false (fun _ => 0)).state.getStats.total_frames
      = -1 := by
  refine ⟨by decide, by decide, by decide, ?_⟩
  have h := process_opened (sampleReady (-1) []) none false (fun _ => 0)
    (by decide) (by decide)
  show ((sampleReady (-1) []).process none false (fun _ => 0)).state.stats_.total_frames = -1
  rw [h.2.2.1]
  decide

/-- C9, amended: after a successful `openInput` on a source whose reported total-frame
count is `<= 0` and not below `INT_MIN`, the least value an `int` holds (so that
`static_cast<int>` returns the count unchanged), the cached count is the reported count
itself (0 or negative): `getTotalFrames()` returns it, and after a successful
`openOutput` the statistics of the following `process` call have `total_frames` equal
to it. Nothing is stated for a count below `INT_MIN`. -/
theorem C9_total_frames_cached_in_int_range (s : VideoProcessor) (env : Env)
    (input_path output_path : String) (fourcc : Int) (fps : Double) (quality : Int)
    (callback : Option (Mat → Int → Mat)) (pcb : Bool) (now : Nat → ℚ)
    (hin : (s.openInput env input_path).1 = true)
    (hcount : (env.capture input_path).frame_count ≤ 0)
    (_hrange : INT_MIN ≤ (env.capture input_path).frame_count)
    (hout : ((s.openInput env input_path).2.openOutput env output_path fourcc fps
      quality).1 = true) :
    (s.openInput env input_path).2.getTotalFrames = (env.capture input_path).frame_count ∧
    (s.openInput env input_path).2.getTotalFrames ≤ 0 ∧
    ((((s.openInput env input_path).2.openOutput env output_path fourcc fps
      quality).2.process callback pcb now).state.getStats.total_frames =
        (env.capture input_path).frame_count) := by
  obtain ⟨_, _, _, _, ht, _⟩ := openInput_success s env input_path hin
  obtain ⟨hc, hco, hw, ht2⟩ := openOutput_success _ env output_path fourcc fps quality hout
  have hp := process_opened _ callback pcb now (by rw [hc]; exact hco) hw
  refine ⟨ht, ?_, ?_⟩
  · show (s.openInput env input_path).2.total_frames_ ≤ 0
    rw [ht]
    exact hcount
  · show (((s.openInput env input_path).2.openOutput env output_path fourcc fps
      quality).2.process callback pcb now).state.stats_.total_frames = _
    rw [hp.2.2.1, ht2, ht]

/-- C9 amended, at a source that reports -7 frames. -/
theorem C9_total_frames_cached_in_int_range_witness :
    (VideoProcessor.new.openInput (sampleEnv (-7) []) "input.mp4").1 = true ∧
    INT_MIN ≤ ((sampleEnv (-7) []).capture "input.mp4").frame_count ∧
    (VideoProcessor.new.openInput (sampleEnv (-7) []) "input.mp4").2.getTotalFrames = -7 :=
  ⟨by decide, by decide,
   (C9_total_frames_cached_in_int_range VideoProcessor.new (sampleEnv (-7) []) "input.mp4"
      "output.mp4" 0 0 60 none false (fun _ => 0) (by decide) (by decide) (by decide)
      (by decide)).1⟩

/-- C10: for a source that can be opened, `openInput` returns true iff the reported
width and height are both `> 0`, whatever the reported rate and total; when it returns
false the source is left not opened, and a following `openOutput` or `process`
returns false. -/
theorem C10_openInput_iff_valid_geometry (s : VideoProcessor) (env : Env)
    (input_path : String) (hcan : (env.capture input_path).opened = true) :
    ((s.openInput env input_path).1 = true ↔
      0 < (env.capture input_path).width ∧ 0 < (env.capture input_path).height) ∧
    ((s.openInput env input_path).1 = false →
      (s.openInput env input_path).2.video_capture_.opened = false ∧
      (∀ (env2 : Env) (output_path : String) (fourcc : Int) (fps : Double) (quality : Int),
        ((s.openInput env input_path).2.openOutput env2 output_path fourcc fps
          quality).1 = false) ∧
      (∀ (callback : Option (Mat → Int → Mat)) (pcb : Bool) (now : Nat → ℚ),
        ((s.openInput env input_path).2.process callback pcb now).result = false)) := by
  have key : (s.openInput env input_path).1 = false →
      (s.openInput env input_path).2.video_capture_.opened = false := by
    unfold VideoProcessor.openInput VideoProcessor.readVideoProperties
    by_cases hg : (env.capture input_path).width ≤ 0 ∨ (env.capture input_path).height ≤ 0
    · simp [hcan, hg, VideoCapture.release, VideoCapture.new]
    · simp [hcan, hg]
  constructor
  · constructor
    · intro h
      obtain ⟨_, _, hw, hh, _⟩ := openInput_success s env input_path h
      exact ⟨hw, hh⟩
    · intro ⟨hw, hh⟩
      have hg : ¬ ((env.capture input_path).width ≤ 0 ∨ (env.capture input_path).height ≤ 0) := by
        omega
      unfold VideoProcessor.openInput VideoProcessor.readVideoProperties
      simp [hcan, hg]
  · intro hf
    have hno := key hf
    refine ⟨hno, ?_, ?_⟩
    · intro env2 output_path fourcc fps quality
      rw [openOutput_not_opened _ env2 output_path fourcc fps quality hno]
    · intro callback pcb now
      rw [process_not_opened _ callback pcb now (Or.inl hno)]

/-- C10 at a source that opens but reports width 0. -/
theorem C10_openInput_iff_valid_geometry_witness :
    ((geometryEnv 0 480).capture "input.mp4").opened = true ∧
    (VideoProcessor.new.openInput (geometryEnv 0 480) "input.mp4").1 = false ∧
    (VideoProcessor.new.openInput (geometryEnv 0 480) "input.mp4").2.video_capture_.opened
      = false ∧
    ((VideoProcessor.new.openInput (geometryEnv 640 480) "input.mp4").1 = true ↔
      (0 : Int) < 640 ∧ (0 : Int) < 480) :=
  ⟨by decide, by decide,
   ((C10_openInput_iff_valid_geometry VideoProcessor.new (geometryEnv 0 480) "input.mp4"
      (by decide)).2 (by decide)).1,
   (C10_openInput_iff_valid_geometry VideoProcessor.new (geometryEnv 640 480) "input.mp4"
      (by decide)).1⟩

theorem Double.not_pos_of_le_zero (x : Double) (h : x ≤ 0) : ¬ 0 < x := by
  change Double.le x (Double.fin ((0 : Nat) : ℚ)) = true at h
  change ¬ Double.lt (Double.fin ((0 : Nat) : ℚ)) x = true
  cases x with
  | nan => simp [Double.lt]
  | negInf => simp [Double.lt]
  | fin q =>
    simp only [Double.le, Double.lt, Nat.cast_zero, decide_eq_true_eq] at h ⊢
    exact not_lt.mpr h
  | posInf => simp [Double.le] at h

theorem Double.pos_of_not_le_zero (x : Double) (hx : x ≠ Double.nan) (h : ¬ x ≤ 0) :
    0 < x := by
  change ¬ Double.le x (Double.fin ((0 : Nat) : ℚ)) = true at h
  change Double.lt (Double.fin ((0 : Nat) : ℚ)) x = true
  cases x with
  | nan => exact absurd rfl hx
  | negInf => simp [Double.le] at h
  | fin q =>
    simp only [Double.le, Double.lt, Nat.cast_zero, decide_eq_true_eq] at h ⊢
    exact not_le.mp h
  | posInf => rfl

/-- C11, as stated, fails: a source that opens with a valid geometry and reports a rate
that is not a number passes the test `fps_ <= 0.0` unclamped, so `openInput` succeeds
and the cached rate is NaN, which is not `> 0`. -/
theorem C11_counterexample :
    (VideoProcessor.new.openInput (rateEnv Double.nan) "input.mp4").1 = true ∧
    (VideoProcessor.new.openInput (rateEnv Double.nan) "input.mp4").2.getFPS = Double.nan ∧
    ¬ (0 < (VideoProcessor.new.openInput (rateEnv Double.nan) "input.mp4").2.getFPS) := by
  decide

/-- C11, amended: after a successful `openInput` on a source whose reported rate is a
number (finite or infinite, not NaN), the cached frame rate is strictly positive: it
is the reported rate when that rate is `> 0`, and 30 when the reported rate is `<= 0`.
The last two facts hold for every reported rate. -/
theorem C11_cached_rate_positive_of_number (s : VideoProcessor) (env : Env)
    (input_path : String) (hin : (s.openInput env input_path).1 = true) :
    ((env.capture input_path).fps ≠ Double.nan → 0 < (s.openInput env input_path).2.getFPS) ∧
    (0 < (env.capture input_path).fps →
      (s.openInput env input_path).2.getFPS = (env.capture input_path).fps) ∧
    ((env.capture input_path).fps ≤ 0 → (s.openInput env input_path).2.getFPS = 30) := by
  unfold VideoProcessor.getFPS
  unfold VideoProcessor.openInput VideoProcessor.readVideoProperties at hin ⊢
  cases ho : (env.capture input_path).opened
  · simp [ho] at hin
  · by_cases hg : (env.capture input_path).width ≤ 0 ∨ (env.capture input_path).height ≤ 0
    · simp [ho, hg] at hin
    · simp only [ho, hg, Bool.not_true, Bool.false_eq_true, if_false]
      by_cases hr : (env.capture input_path).fps ≤ 0
      · rw [if_pos hr]
        exact ⟨fun _ => (show (0 : Double) < 30 by decide),
          fun h => absurd h (Double.not_pos_of_le_zero _ hr), fun _ => rfl⟩
      · rw [if_neg hr]
        exact ⟨fun hx => Double.pos_of_not_le_zero _ hx hr, fun _ => rfl,
          fun h => absurd h hr⟩

/-- C11 amended, at sources that report the rates 0, 24 and minus infinity. -/
theorem C11_cached_rate_positive_of_number_witness :
    (VideoProcessor.new.openInput (rateEnv 0) "input.mp4").1 = true ∧
    (VideoProcessor.new.openInput (rateEnv 0) "input.mp4").2.getFPS = 30 ∧
    (VideoProcessor.new.openInput (rateEnv 24) "input.mp4").2.getFPS = 24 ∧
    0 < (VideoProcessor.new.openInput (rateEnv Double.negInf) "input.mp4").2.getFPS :=
  ⟨by decide,
   (C11_cached_rate_positive_of_number VideoProcessor.new (rateEnv 0) "input.mp4"
      (by decide)).2.2 (by decide),
   (C11_cached_rate_positive_of_number VideoProcessor.new (rateEnv 24) "input.mp4"
      (by decide)).2.1 (by decide),
   (C11_cached_rate_positive_of_number VideoProcessor.new (rateEnv Double.negInf) "input.mp4"
      (by decide)).1 (by decide)⟩

/-! ### The binary64 quotient of `progress()` -/

theorem roundNearestEven_near (n d : Nat) (hd : 0 < d) :
    2 * n ≤ 2 * (roundNearestEven n d * d) + d ∧ 2 * (roundNearestEven n d * d) ≤ 2 * n + d := by
  have h1 := Nat.div_add_mod n d
  have h2 := Nat.mod_lt n hd
  have h3 : (n / d + 1) * d = n / d * d + d := by ring
  have h4 : d * (n / d) = n / d * d := by ring
  unfold roundNearestEven
  split_ifs <;> (try rw [h3]) <;> omega

theorem roundNearestEven_exact (n d : Nat) (hd : 0 < d) (h : d ∣ n) :
    roundNearestEven n d = n / d := by
  have : n % d = 0 := Nat.mod_eq_zero_of_dvd h
  unfold roundNearestEven
  simp [this, hd]

theorem two_zpow_split (k : Int) :
    (2 : ℚ) ^ k = (2 : ℚ) ^ k.toNat / (2 : ℚ) ^ (-k).toNat := by
  rcases le_total 0 k with h | h
  · have h1 : (-k).toNat = 0 := by omega
    have h2 : ((k.toNat : Int)) = k := Int.toNat_of_nonneg h
    rw [h1, pow_zero, div_one, ← zpow_natCast, h2]
  · have h1 : k.toNat = 0 := by omega
    have h2 : (((-k).toNat : Int)) = -k := Int.toNat_of_nonneg (by omega)
    rw [h1, pow_zero, one_div, ← zpow_natCast, h2, zpow_neg, inv_inv]

theorem two_zpow_natSub (x y : Nat) :
    (2 : ℚ) ^ ((x : Int) - (y : Int)) = (2 : ℚ) ^ x / (2 : ℚ) ^ y := by
  rw [zpow_sub₀ (by norm_num : (2 : ℚ) ≠ 0), zpow_natCast, zpow_natCast]

theorem log2_quotient_bounds (a b : Nat) (ha : 0 < a) (hb : 0 < b) :
    (2 : ℚ) ^ ((Nat.log2 a : Int) - (Nat.log2 b : Int) - 1) < (a : ℚ) / b ∧
    (a : ℚ) / b < (2 : ℚ) ^ ((Nat.log2 a : Int) - (Nat.log2 b : Int) + 1) := by
  have hA1 : (2 : ℚ) ^ Nat.log2 a ≤ a := by
    exact_mod_cast Nat.log2_self_le (Nat.pos_iff_ne_zero.mp ha)
  have hA2 : (a : ℚ) < (2 : ℚ) ^ (Nat.log2 a + 1) := by
    exact_mod_cast (Nat.lt_log2_self : a < 2 ^ (Nat.log2 a + 1))
  have hB1 : (2 : ℚ) ^ Nat.log2 b ≤ b := by
    exact_mod_cast Nat.log2_self_le (Nat.pos_iff_ne_zero.mp hb)
  have hB2 : (b : ℚ) < (2 : ℚ) ^ (Nat.log2 b + 1) := by
    exact_mod_cast (Nat.lt_log2_self : b < 2 ^ (Nat.log2 b + 1))
  have hbq : (0 : ℚ) < b := by exact_mod_cast hb
  have haq : (0 : ℚ) < a := by exact_mod_cast ha
  have hpa : (0 : ℚ) < (2 : ℚ) ^ Nat.log2 a := by positivity
  have hpb : (0 : ℚ) < (2 : ℚ) ^ Nat.log2 b := by positivity
  have e1 : (2 : ℚ) ^ ((Nat.log2 a : Int) - (Nat.log2 b : Int) - 1) =
      (2 : ℚ) ^ Nat.log2 a / (2 : ℚ) ^ (Nat.log2 b + 1) := by
    rw [← two_zpow_natSub]
    congr 1
    push_cast
    ring
  have e2 : (2 : ℚ) ^ ((Nat.log2 a : Int) - (Nat.log2 b : Int) + 1) =
      (2 : ℚ) ^ (Nat.log2 a + 1) / (2 : ℚ) ^ Nat.log2 b := by
    rw [← two_zpow_natSub]
    congr 1
    push_cast
    ring
  constructor
  · rw [e1, div_lt_div_iff₀ (by positivity) hbq]
    calc (2 : ℚ) ^ Nat.log2 a * b < (2 : ℚ) ^ Nat.log2 a * (2 : ℚ) ^ (Nat.log2 b + 1) :=
          mul_lt_mul_of_pos_left hB2 hpa
      _ ≤ a * (2 : ℚ) ^ (Nat.log2 b + 1) := mul_le_mul_of_nonneg_right hA1 (by positivity)
  · rw [e2, div_lt_div_iff₀ hbq hpb]
    calc (a : ℚ) * (2 : ℚ) ^ Nat.log2 b < (2 : ℚ) ^ (Nat.log2 a + 1) * (2 : ℚ) ^ Nat.log2 b :=
          mul_lt_mul_of_pos_right hA2 hpb
      _ ≤ (2 : ℚ) ^ (Nat.log2 a + 1) * b := mul_le_mul_of_nonneg_left hB1 (by positivity)

theorem binary64Exponent_bracket (a b : Nat) (ha : 0 < a) (hb : 0 < b) :
    (2 : ℚ) ^ (binary64Exponent a b + 52) ≤ (a : ℚ) / b ∧
    (a : ℚ) / b < (2 : ℚ) ^ (binary64Exponent a b + 53) := by
  obtain ⟨hlo, hhi⟩ := log2_quotient_bounds a b ha hb
  have hbq : (0 : ℚ) < b := by exact_mod_cast hb
  have hneg : (Nat.log2 b : Int) - (Nat.log2 a : Int) =
      -((Nat.log2 a : Int) - (Nat.log2 b : Int)) := by ring
  have hp2 : (0 : ℚ) < (2 : ℚ) ^ (-((Nat.log2 a : Int) - (Nat.log2 b : Int))).toNat := by
    positivity
  have htest : (b * 2 ^ ((Nat.log2 a : Int) - (Nat.log2 b : Int)).toNat ≤
      a * 2 ^ ((Nat.log2 b : Int) - (Nat.log2 a : Int)).toNat) ↔
      (2 : ℚ) ^ ((Nat.log2 a : Int) - (Nat.log2 b : Int)) ≤ (a : ℚ) / b := by
    rw [hneg, two_zpow_split, div_le_div_iff₀ hp2 hbq]
    constructor
    · intro h
      have : ((b * 2 ^ ((Nat.log2 a : Int) - (Nat.log2 b : Int)).toNat : Nat) : ℚ) ≤
          ((a * 2 ^ (-((Nat.log2 a : Int) - (Nat.log2 b : Int))).toNat : Nat) : ℚ) := by
        exact_mod_cast h
      push_cast at this
      linarith
    · intro h
      have : ((b * 2 ^ ((Nat.log2 a : Int) - (Nat.log2 b : Int)).toNat : Nat) : ℚ) ≤
          ((a * 2 ^ (-((Nat.log2 a : Int) - (Nat.log2 b : Int))).toNat : Nat) : ℚ) := by
        push_cast
        linarith
      exact_mod_cast this
  unfold binary64Exponent
  split_ifs with h
  · have e1 : (Nat.log2 a : Int) - (Nat.log2 b : Int) - 52 + 52 =
        (Nat.log2 a : Int) - (Nat.log2 b : Int) := by ring
    have e2 : (Nat.log2 a : Int) - (Nat.log2 b : Int) - 52 + 53 =
        (Nat.log2 a : Int) - (Nat.log2 b : Int) + 1 := by ring
    rw [e1, e2]
    exact ⟨htest.mp h, hhi⟩
  · have e1 : (Nat.log2 a : Int) - (Nat.log2 b : Int) - 1 - 52 + 52 =
        (Nat.log2 a : Int) - (Nat.log2 b : Int) - 1 := by ring
    have e2 : (Nat.log2 a : Int) - (Nat.log2 b : Int) - 1 - 52 + 53 =
        (Nat.log2 a : Int) - (Nat.log2 b : Int) := by ring
    rw [e1, e2]
    exact ⟨le_of_lt hlo, lt_of_not_le (fun hc => h (htest.mpr hc))⟩

theorem binary64_scaled (a b : Nat) (hb : 0 < b) :
    0 < b * 2 ^ (binary64Exponent a b).toNat ∧
    (a : ℚ) / b =
      ((a * 2 ^ (-(binary64Exponent a b)).toNat : Nat) : ℚ) /
        ((b * 2 ^ (binary64Exponent a b).toNat : Nat) : ℚ) *
        (2 : ℚ) ^ binary64Exponent a b := by
  have hbq : (b : ℚ) ≠ 0 := by exact_mod_cast (Nat.pos_iff_ne_zero.mp hb)
  refine ⟨Nat.mul_pos hb (by positivity), ?_⟩
  rw [two_zpow_split (binary64Exponent a b)]
  push_cast
  field_simp
  ring

theorem binary64_half_ulp (a b : Nat) (hb : 0 < b) :
    |(binary64Significand a b : ℚ) * (2 : ℚ) ^ binary64Exponent a b - (a : ℚ) / b| ≤
      (2 : ℚ) ^ binary64Exponent a b / 2 := by
  obtain ⟨hD, hs⟩ := binary64_scaled a b hb
  obtain ⟨h1, h2⟩ := roundNearestEven_near (a * 2 ^ (-(binary64Exponent a b)).toNat)
    (b * 2 ^ (binary64Exponent a b).toNat) hD
  have hDq : (0 : ℚ) < ((b * 2 ^ (binary64Exponent a b).toNat : Nat) : ℚ) := by
    exact_mod_cast hD
  have hp : (0 : ℚ) < (2 : ℚ) ^ binary64Exponent a b := by positivity
  have q1 : (2 : ℚ) * ((a * 2 ^ (-(binary64Exponent a b)).toNat : Nat) : ℚ) ≤
      2 * ((binary64Significand a b : ℚ) *
        ((b * 2 ^ (binary64Exponent a b).toNat : Nat) : ℚ)) +
      ((b * 2 ^ (binary64Exponent a b).toNat : Nat) : ℚ) := by
    unfold binary64Significand
    exact_mod_cast h1
  have q2 : (2 : ℚ) * ((binary64Significand a b : ℚ) *
        ((b * 2 ^ (binary64Exponent a b).toNat : Nat) : ℚ)) ≤
      2 * ((a * 2 ^ (-(binary64Exponent a b)).toNat : Nat) : ℚ) +
      ((b * 2 ^ (binary64Exponent a b).toNat : Nat) : ℚ) := by
    unfold binary64Significand
    exact_mod_cast h2
  rw [hs]
  generalize ((a * 2 ^ (-(binary64Exponent a b)).toNat : Nat) : ℚ) = N at *
  generalize ((b * 2 ^ (binary64Exponent a b).toNat : Nat) : ℚ) = D at *
  generalize (binary64Significand a b : ℚ) = m at *
  generalize (2 : ℚ) ^ binary64Exponent a b = u at *
  have hfrac : |m - N / D| ≤ 1 / 2 := by
    have hup : N / D ≤ m + 1 / 2 := by
      rw [div_le_iff₀ hDq]
      linarith
    have hdn : m - 1 / 2 ≤ N / D := by
      rw [le_div_iff₀ hDq]
      linarith
    rw [abs_le]
    constructor <;> linarith
  have : m * u - N / D * u = (m - N / D) * u := by ring
  rw [this, abs_mul, abs_of_pos hp]
  calc |m - N / D| * u ≤ 1 / 2 * u := mul_le_mul_of_nonneg_right hfrac (le_of_lt hp)
    _ = u / 2 := by ring

theorem binary64_rel_error (a b : Nat) (ha : 0 < a) (hb : 0 < b) :
    |(binary64Significand a b : ℚ) * (2 : ℚ) ^ binary64Exponent a b - (a : ℚ) / b| ≤
      (a : ℚ) / b / 2 ^ 53 := by
  have h := binary64_half_ulp a b hb
  obtain ⟨hlo, _⟩ := binary64Exponent_bracket a b ha hb
  rw [zpow_add₀ (by norm_num : (2 : ℚ) ≠ 0)] at hlo
  have hp : (0 : ℚ) < (2 : ℚ) ^ binary64Exponent a b := by positivity
  calc |(binary64Significand a b : ℚ) * (2 : ℚ) ^ binary64Exponent a b - (a : ℚ) / b|
      ≤ (2 : ℚ) ^ binary64Exponent a b / 2 := h
    _ = (2 : ℚ) ^ binary64Exponent a b * (2 : ℚ) ^ (52 : Int) / 2 ^ 53 := by
        norm_num
        ring
    _ ≤ (a : ℚ) / b / 2 ^ 53 := by
        apply div_le_div_of_nonneg_right hlo
        positivity

theorem binary64Significand_bounds (a b : Nat) (ha : 0 < a) (hb : 0 < b) :
    2 ^ 52 ≤ binary64Significand a b ∧ binary64Significand a b ≤ 2 ^ 53 := by
  have h := binary64_half_ulp a b hb
  obtain ⟨hlo, hhi⟩ := binary64Exponent_bracket a b ha hb
  rw [zpow_add₀ (by norm_num : (2 : ℚ) ≠ 0)] at hlo hhi
  have hp : (0 : ℚ) < (2 : ℚ) ^ binary64Exponent a b := by positivity
  rw [abs_le] at h
  obtain ⟨h1, h2⟩ := h
  generalize (2 : ℚ) ^ binary64Exponent a b = u at *
  generalize binary64Significand a b = m at *
  norm_num at hlo hhi
  have hge : ((2 : ℚ) ^ 52 - 1 / 2) * u ≤ (m : ℚ) * u := by
    norm_num
    linarith
  have hle : (m : ℚ) * u ≤ ((2 : ℚ) ^ 53 + 1 / 2) * u := by
    norm_num
    linarith
  have hge2 := le_of_mul_le_mul_right hge hp
  have hle2 := le_of_mul_le_mul_right hle hp
  constructor
  · by_contra hc
    have : (m : ℚ) ≤ 4503599627370495 := by
      exact_mod_cast (show m ≤ 4503599627370495 by omega)
    norm_num at hge2
    linarith
  · by_contra hc
    have : (9007199254740993 : ℚ) ≤ (m : ℚ) := by
      exact_mod_cast (show 9007199254740993 ≤ m by omega)
    norm_num at hle2
    linarith

theorem binary64_exact (a b : Nat) (ha : 0 < a) (hb : 0 < b) (M : Nat) (E : Int)
    (hM : M < 2 ^ 53) (h : (a : ℚ) / b = (M : ℚ) * (2 : ℚ) ^ E) :
    (binary64Significand a b : ℚ) * (2 : ℚ) ^ binary64Exponent a b = (a : ℚ) / b := by
  obtain ⟨hlo, _⟩ := binary64Exponent_bracket a b ha hb
  obtain ⟨hD, hs⟩ := binary64_scaled a b hb
  have h2 : (2 : ℚ) ≠ 0 := by norm_num
  have hMq : (M : ℚ) < (2 : ℚ) ^ (53 : Int) := by
    have : (M : ℚ) < (2 : ℚ) ^ (53 : Nat) := by exact_mod_cast hM
    rw [← zpow_natCast] at this
    exact this
  have hpE : (0 : ℚ) < (2 : ℚ) ^ E := by positivity
  have hlt : (2 : ℚ) ^ (binary64Exponent a b + 52) < (2 : ℚ) ^ (53 + E) := by
    rw [zpow_add₀ h2 53 E]
    calc (2 : ℚ) ^ (binary64Exponent a b + 52) ≤ (a : ℚ) / b := hlo
      _ = (M : ℚ) * (2 : ℚ) ^ E := h
      _ < (2 : ℚ) ^ (53 : Int) * (2 : ℚ) ^ E := mul_lt_mul_of_pos_right hMq hpE
  have hexp : binary64Exponent a b + 52 < 53 + E :=
    (zpow_lt_zpow_iff_right₀ (by norm_num : (1 : ℚ) < 2)).mp hlt
  have hj : ((E - binary64Exponent a b).toNat : Int) = E - binary64Exponent a b :=
    Int.toNat_of_nonneg (by omega)
  have hpe : (0 : ℚ) < (2 : ℚ) ^ binary64Exponent a b := by positivity
  have hDq : (0 : ℚ) < ((b * 2 ^ (binary64Exponent a b).toNat : Nat) : ℚ) := by
    exact_mod_cast hD
  have hE : (2 : ℚ) ^ E =
      (2 : ℚ) ^ (E - binary64Exponent a b).toNat * (2 : ℚ) ^ binary64Exponent a b := by
    rw [← zpow_natCast, hj, ← zpow_add₀ h2]
    congr 1
    ring
  have hN : ((a * 2 ^ (-(binary64Exponent a b)).toNat : Nat) : ℚ) =
      ((M * 2 ^ (E - binary64Exponent a b).toNat *
        (b * 2 ^ (binary64Exponent a b).toNat) : Nat) : ℚ) := by
    have h3 : ((a * 2 ^ (-(binary64Exponent a b)).toNat : Nat) : ℚ) /
        ((b * 2 ^ (binary64Exponent a b).toNat : Nat) : ℚ) *
        (2 : ℚ) ^ binary64Exponent a b =
        (M : ℚ) * (2 : ℚ) ^ (E - binary64Exponent a b).toNat *
          (2 : ℚ) ^ binary64Exponent a b := by
      rw [← hs, h, hE]
      ring
    have h4 := mul_right_cancel₀ (ne_of_gt hpe) h3
    rw [div_eq_iff (ne_of_gt hDq)] at h4
    rw [h4]
    push_cast
    ring
  have hNn : a * 2 ^ (-(binary64Exponent a b)).toNat =
      M * 2 ^ (E - binary64Exponent a b).toNat * (b * 2 ^ (binary64Exponent a b).toNat) := by
    exact_mod_cast hN
  have hm : binary64Significand a b = M * 2 ^ (E - binary64Exponent a b).toNat := by
    unfold binary64Significand
    rw [roundNearestEven_exact _ _ hD (hNn ▸ Dvd.intro_left _ rfl), hNn,
      Nat.mul_div_cancel _ hD]
  rw [hm, h, hE]
  push_cast
  ring

theorem binary64Div_decompose (p t : Int) (hp : p ≠ 0) (ht : 0 < t) :
    0 < p.natAbs ∧ 0 < t.natAbs ∧
    ((p.sign : ℚ) = 1 ∨ (p.sign : ℚ) = -1) ∧
    binary64Div p t = (p.sign : ℚ) *
      ((binary64Significand p.natAbs t.natAbs : ℚ) *
        (2 : ℚ) ^ binary64Exponent p.natAbs t.natAbs) ∧
    (p : ℚ) / (t : ℚ) = (p.sign : ℚ) * ((p.natAbs : ℚ) / (t.natAbs : ℚ)) := by
  have ht0 : t ≠ 0 := by omega
  have hts : t.sign = 1 := Int.sign_eq_one_of_pos ht
  have htn : ((t.natAbs : Int) : ℚ) = (t : ℚ) := by
    rw [Int.natAbs_of_nonneg (le_of_lt ht)]
  rw [Int.cast_natCast] at htn
  have hpn : ((p.sign * (p.natAbs : Int) : Int) : ℚ) = (p : ℚ) := by
    rw [Int.sign_mul_natAbs p]
  rw [Int.cast_mul, Int.cast_natCast] at hpn
  refine ⟨Int.natAbs_pos.mpr hp, Int.natAbs_pos.mpr ht0, ?_, ?_, ?_⟩
  · rcases lt_or_gt_of_ne hp with h | h
    · right
      rw [Int.sign_eq_neg_one_of_neg h]
      norm_num
    · left
      rw [Int.sign_eq_one_of_pos h]
      norm_num
  · unfold binary64Div
    simp only [hp, ht0, or_self, if_false, hts, mul_one]
    ring
  · rw [htn, ← hpn]
    ring

theorem abs_signed_sub (s x y : ℚ) (hs : s = 1 ∨ s = -1) :
    |s * x - s * y| = |x - y| ∧ (0 ≤ y → |s * y| = y) ∧ (0 ≤ x → |s * x| = x) := by
  rcases hs with h | h <;> subst h
  · exact ⟨by rw [one_mul, one_mul], fun h => by rw [one_mul, abs_of_nonneg h],
      fun h => by rw [one_mul, abs_of_nonneg h]⟩
  · refine ⟨?_, ?_, ?_⟩
    · rw [show (-1 : ℚ) * x - -1 * y = -(x - y) by ring, abs_neg]
    · intro h
      rw [show (-1 : ℚ) * y = -y by ring, abs_neg, abs_of_nonneg h]
    · intro h
      rw [show (-1 : ℚ) * x = -x by ring, abs_neg, abs_of_nonneg h]

theorem binary64Div_spec (p t : Int) (ht : 0 < t) :
    (∃ (m : Nat) (e : Int), m ≤ 2 ^ 53 ∧ (p ≠ 0 → 2 ^ 52 ≤ m) ∧
      |binary64Div p t| = (m : ℚ) * (2 : ℚ) ^ e ∧
      |binary64Div p t - (p : ℚ) / (t : ℚ)| ≤ (2 : ℚ) ^ e / 2) ∧
    |binary64Div p t - (p : ℚ) / (t : ℚ)| ≤ |(p : ℚ) / (t : ℚ)| / 2 ^ 53 ∧
    (∀ (M : Nat) (E : Int), M < 2 ^ 53 → |(p : ℚ) / (t : ℚ)| = (M : ℚ) * (2 : ℚ) ^ E →
      binary64Div p t = (p : ℚ) / (t : ℚ)) := by
  by_cases hp : p = 0
  · subst hp
    have h0 : binary64Div 0 t = 0 := by simp [binary64Div]
    rw [h0]
    refine ⟨⟨0, 0, by norm_num, fun h => absurd rfl h, by simp, by simp⟩, by simp,
      fun _ _ _ _ => by simp⟩
  · obtain ⟨ha, hb, hs, hdiv, hquot⟩ := binary64Div_decompose p t hp ht
    have hy : (0 : ℚ) ≤ (p.natAbs : ℚ) / (t.natAbs : ℚ) := by positivity
    have hx : (0 : ℚ) ≤ (binary64Significand p.natAbs t.natAbs : ℚ) *
        (2 : ℚ) ^ binary64Exponent p.natAbs t.natAbs := by positivity
    obtain ⟨e1, e2, e3⟩ := abs_signed_sub (p.sign : ℚ)
      ((binary64Significand p.natAbs t.natAbs : ℚ) *
        (2 : ℚ) ^ binary64Exponent p.natAbs t.natAbs)
      ((p.natAbs : ℚ) / (t.natAbs : ℚ)) hs
    rw [hdiv, hquot, e1, e2 hy, e3 hx]
    refine ⟨⟨_, _, (binary64Significand_bounds _ _ ha hb).2,
      fun _ => (binary64Significand_bounds _ _ ha hb).1, rfl,
      binary64_half_ulp _ _ hb⟩, binary64_rel_error _ _ ha hb, ?_⟩
    intro M E hM hME
    rw [binary64_exact _ _ ha hb M E hM hME]

theorem binary64Exponent_one_three : binary64Exponent 1 3 = -54 := by
  simp [binary64Exponent, Nat.log2]

theorem binary64Significand_one_three : binary64Significand 1 3 = 6004799503160661 := by
  unfold binary64Significand
  rw [binary64Exponent_one_three]
  decide

theorem binary64Div_one_three :
    binary64Div 1 3 = 6004799503160661 / 18014398509481984 := by
  unfold binary64Div
  simp only [Int.natAbs_one, show (3 : Int).natAbs = 3 from rfl, binary64Exponent_one_three,
    binary64Significand_one_three, show Int.sign 3 = 1 from rfl, Int.sign_one]
  norm_num


/-- C12, as stated, fails: for 1 frame processed of 3, `progress()` returns the
binary64 number `6004799503160661 / 2^54` (`0x1.5555555555555p-2`), not the exact
quotient 1/3. -/
theorem C12_counterexample :
    ({ total_frames := 3, processed_frames := 1, fps := 0, elapsed_seconds := 0 } :
      ProcessingStats).progress = 6004799503160661 / 18014398509481984 ∧
    ({ total_frames := 3, processed_frames := 1, fps := 0, elapsed_seconds := 0 } :
      ProcessingStats).progress ≠ ((1 : Int) : ℚ) / ((3 : Int) : ℚ) := by
  have h : ({ total_frames := 3, processed_frames := 1, fps := 0, elapsed_seconds := 0 } :
      ProcessingStats).progress = 6004799503160661 / 18014398509481984 := by
    unfold ProcessingStats.progress
    rw [if_pos (by decide)]
    exact binary64Div_one_three
  refine ⟨h, ?_⟩
  rw [h]
  norm_num

/-- C12, amended: `progress()` returns 0 when `total_frames == 0`, whatever
`processed_frames` is, and for every `total_frames <= 0`; when `total_frames > 0` the
divisor is not zero and the result is the binary64 number nearest to
`processed_frames / total_frames`: its magnitude is `m * 2^e` with `m <= 2^53` (and
`2^52 <= m` unless `processed_frames == 0`), it lies within half of `2^e` of the
quotient, so within the fraction `2^-53` of it, and it is the exact quotient whenever
the quotient itself is `M * 2^E` with `M < 2^53`. -/
theorem C12_progress_guarded_and_rounded (st : ProcessingStats) :
    ({ st with total_frames := 0 } : ProcessingStats).progress = 0 ∧
    (st.total_frames ≤ 0 → st.progress = 0) ∧
    (0 < st.total_frames →
      (st.total_frames : ℚ) ≠ 0 ∧
      (∃ (m : Nat) (e : Int), m ≤ 2 ^ 53 ∧ (st.processed_frames ≠ 0 → 2 ^ 52 ≤ m) ∧
        |st.progress| = (m : ℚ) * (2 : ℚ) ^ e ∧
        |st.progress - (st.processed_frames : ℚ) / (st.total_frames : ℚ)| ≤
          (2 : ℚ) ^ e / 2) ∧
      |st.progress - (st.processed_frames : ℚ) / (st.total_frames : ℚ)| ≤
        |(st.processed_frames : ℚ) / (st.total_frames : ℚ)| / 2 ^ 53 ∧
      (∀ (M : Nat) (E : Int), M < 2 ^ 53 →
        |(st.processed_frames : ℚ) / (st.total_frames : ℚ)| = (M : ℚ) * (2 : ℚ) ^ E →
        st.progress = (st.processed_frames : ℚ) / (st.total_frames : ℚ))) := by
  unfold ProcessingStats.progress
  refine ⟨by simp, ?_, ?_⟩
  · intro h
    have : ¬ st.total_frames > 0 := by omega
    simp [this]
  · intro h
    have hne : (st.total_frames : ℚ) ≠ 0 := by
      have : st.total_frames ≠ 0 := by omega
      exact_mod_cast this
    rw [if_pos h]
    obtain ⟨h1, h2, h3⟩ := binary64Div_spec st.processed_frames st.total_frames h
    exact ⟨hne, h1, h2, h3⟩

/-- C12 amended, at a snapshot with total -2 and at one with 3 of 4 frames, whose
quotient is a binary64 number. -/
theorem C12_progress_guarded_and_rounded_witness :
    ({ total_frames := -2, processed_frames := 5, fps := 0, elapsed_seconds := 0 } :
      ProcessingStats).progress = 0 ∧
    ({ total_frames := 4, processed_frames := 3, fps := 0, elapsed_seconds := 0 } :
      ProcessingStats).progress = ((3 : Int) : ℚ) / ((4 : Int) : ℚ) :=
  ⟨(C12_progress_guarded_and_rounded
      { total_frames := -2, processed_frames := 5, fps := 0, elapsed_seconds := 0 }).2.1
      (by decide),
   ((C12_progress_guarded_and_rounded
      { total_frames := 4, processed_frames := 3, fps := 0, elapsed_seconds := 0 }).2.2
      (by decide)).2.2.2 3 (-2) (by norm_num) (by norm_num)⟩

/-! ### The pool: release, acquire, clear -/

/-- C13: `release(f)` leaves the pool unchanged when `f` is empty or when the pool
already holds `capacity` entries; when `f` is non-empty and the occupancy is below the
capacity it appends `f` at the back, so the occupancy grows by exactly one and the
entries already held keep their places. -/
theorem C13_release_effect (b : FrameBuffer) (f : Mat) :
    (f.empty = true ∨ b.capacity_ ≤ b.pool_.length → b.release f = b) ∧
    (f.empty = false → b.pool_.length < b.capacity_ →
      (b.release f).pool_ = b.pool_ ++ [f] ∧
      (b.release f).available = b.available + 1 ∧
      (b.release f).capacity_ = b.capacity_) := by
  unfold FrameBuffer.release FrameBuffer.available
  constructor
  · intro h
    rcases h with h | h
    · simp [h]
    · have : ¬ b.pool_.length < b.capacity_ := by omega
      simp [this]
  · intro h1 h2
    simp [h1, h2]

/-- C13 at a pool of capacity 1: a first frame is appended, a second one and an empty
one are not. -/
theorem C13_release_effect_witness :
    ((FrameBuffer.new 1).release (sampleFrame 1)).pool_ = [sampleFrame 1] ∧
    ((FrameBuffer.new 1).release (sampleFrame 1)).release (sampleFrame 2) =
      (FrameBuffer.new 1).release (sampleFrame 1) ∧
    (FrameBuffer.new 1).release Mat.mk0 = FrameBuffer.new 1 :=
  ⟨((C13_release_effect (FrameBuffer.new 1) (sampleFrame 1)).2 (by decide) (by decide)).1,
   (C13_release_effect ((FrameBuffer.new 1).release (sampleFrame 1)) (sampleFrame 2)).1
      (Or.inr (by decide)),
   (C13_release_effect (FrameBuffer.new 1) Mat.mk0).1 (Or.inl (by decide))⟩

theorem FrameBuffer.releaseAll_fits (frames : List Mat) (b : FrameBuffer)
    (hfit : b.pool_.length + frames.length ≤ b.capacity_)
    (hne : ∀ f ∈ frames, f.empty = false) :
    b.releaseAll frames = { b with pool_ := b.pool_ ++ frames } := by
  induction frames generalizing b with
  | nil => simp [FrameBuffer.releaseAll]
  | cons f fs ih =>
    have hf : f.empty = false := hne f (List.mem_cons_self f fs)
    have hlt : b.pool_.length < b.capacity_ := by
      simp only [List.length_cons] at hfit
      omega
    have hr : b.release f = { b with pool_ := b.pool_ ++ [f] } := by
      simp [FrameBuffer.release, hf, hlt]
    rw [FrameBuffer.releaseAll, hr, ih _ (by simp at hfit ⊢; omega)
      (fun g hg => hne g (List.mem_cons_of_mem f hg))]
    simp

theorem FrameBuffer.acquireN_all (pool : List Mat) (capacity : Nat) :
    ({ capacity_ := capacity, pool_ := pool } : FrameBuffer).acquireN pool.length =
      (pool, { capacity_ := capacity, pool_ := [] }) := by
  induction pool with
  | nil => rfl
  | cons f fs ih =>
    simp only [List.length_cons, FrameBuffer.acquireN, FrameBuffer.acquire]
    rw [ih]

/-- C14: `acquire` on a non-empty pool returns the entry at the front, the oldest one
held, removes exactly that entry and lowers the occupancy by one; and for every
capacity `C` and `n <= C` non-empty frames released into an empty pool, `n` calls of
`acquire` return these frames in the order of their release and leave the pool empty. -/
theorem C14_acquire_fifo (C : Nat) (frames : List Mat) :
    (∀ (b : FrameBuffer) (f : Mat) (rest : List Mat), b.pool_ = f :: rest →
      b.acquire.1 = f ∧ b.acquire.2.pool_ = rest ∧
      b.acquire.2.available + 1 = b.available ∧ b.acquire.2.capacity_ = b.capacity_) ∧
    (frames.length ≤ C → (∀ f ∈ frames, f.empty = false) →
      (((FrameBuffer.new C).releaseAll frames).acquireN frames.length).1 = frames ∧
      (((FrameBuffer.new C).releaseAll frames).acquireN frames.length).2.pool_ = [] ∧
      (((FrameBuffer.new C).releaseAll frames).acquireN frames.length).2.available = 0) := by
  constructor
  · intro b f rest hp
    simp [FrameBuffer.acquire, FrameBuffer.available, hp]
  · intro hC hne
    rw [FrameBuffer.releaseAll_fits frames (FrameBuffer.new C)
      (by simpa [FrameBuffer.new] using hC) hne]
    simp only [FrameBuffer.new, List.nil_append]
    rw [FrameBuffer.acquireN_all]
    exact ⟨rfl, rfl, rfl⟩

/-- C14 at a pool of capacity 3 and three frames. -/
theorem C14_acquire_fifo_witness :
    (((FrameBuffer.new 3).releaseAll [sampleFrame 1, sampleFrame 2, sampleFrame 3]).acquireN
      3).1 = [sampleFrame 1, sampleFrame 2, sampleFrame 3] ∧
    ((FrameBuffer.new 3).releaseAll [sampleFrame 1, sampleFrame 2]).acquire.1 =
      sampleFrame 1 :=
  ⟨((C14_acquire_fifo 3 [sampleFrame 1, sampleFrame 2, sampleFrame 3]).2 (by decide)
      (by decide)).1,
   ((C14_acquire_fifo 3 []).1 ((FrameBuffer.new 3).releaseAll [sampleFrame 1, sampleFrame 2])
      (sampleFrame 1) [sampleFrame 2] (by decide)).1⟩

/-- C15: after `clear()` `available()` is 0 and an `acquire` made before any further
release returns the empty frame `cv::Mat()` and leaves the pool empty; the same holds
on a freshly constructed pool. `acquire` has a result on every pool. -/
theorem C15_acquire_after_clear (b : FrameBuffer) (C : Nat) :
    b.clear.available = 0 ∧
    b.clear.acquire.1 = Mat.mk0 ∧ b.clear.acquire.1.empty = true ∧
    b.clear.acquire.2.pool_ = [] ∧ b.clear.acquire.2.available = 0 ∧
    (FrameBuffer.new C).available = 0 ∧
    (FrameBuffer.new C).acquire.1 = Mat.mk0 ∧ (FrameBuffer.new C).acquire.1.empty = true ∧
    (FrameBuffer.new C).acquire.2.pool_ = [] ∧
    (b.acquire.1.empty = true ∨ b.acquire.1 ∈ b.pool_) := by
  refine ⟨rfl, rfl, rfl, rfl, rfl, rfl, rfl, rfl, rfl, ?_⟩
  unfold FrameBuffer.acquire
  cases b.pool_ with
  | nil => exact Or.inl rfl
  | cons f fs => exact Or.inr (List.mem_cons_self f fs)

/-! ### `close` and `openOutput` -/

/-- C16: `close` is idempotent, `close(close(s)) = close(s)` for every processor state;
after `close` the source and the sink are not opened and the pool is empty; the cached
stream properties and the last statistics are left as they were. -/
theorem C16_close_idempotent (s : VideoProcessor) :
    s.close.close = s.close ∧
    s.close.video_capture_.opened = false ∧
    s.close.video_writer_.opened = false ∧
    s.close.frame_buffer_.available = 0 ∧
    s.close.getFrameWidth = s.getFrameWidth ∧
    s.close.getFrameHeight = s.getFrameHeight ∧
    s.close.getFPS = s.getFPS ∧
    s.close.getTotalFrames = s.getTotalFrames ∧
    s.close.getFourCC = s.getFourCC ∧
    s.close.getStats = s.getStats := by
  unfold VideoProcessor.close VideoProcessor.getFrameWidth VideoProcessor.getFrameHeight
    VideoProcessor.getFPS VideoProcessor.getTotalFrames VideoProcessor.getFourCC
    VideoProcessor.getStats
  cases h : s.video_capture_.opened <;> cases h2 : s.video_writer_.opened <;>
    simp [h, h2, VideoCapture.release, VideoCapture.new, VideoWriter.release,
      FrameBuffer.clear, FrameBuffer.available]

theorem openOutput_opened (s : VideoProcessor) (env : Env) (output_path : String)
    (fourcc : Int) (fps : Double) (quality : Int) (h : s.video_capture_.opened = true) :
    s.openOutput env output_path fourcc fps quality =
      ((s.video_writer_.open env
          { filename := output_path,
            fourcc := if fourcc = 0 then s.fourcc_ else fourcc,
            fps := if fps ≤ 0 then s.fps_ else fps,
            width := s.frame_width_, height := s.frame_height_, isColor := true }).opened,
       { s with video_writer_ := s.video_writer_.open env {
            filename := output_path,
            fourcc := if fourcc = 0 then s.fourcc_ else fourcc,
            fps := if fps ≤ 0 then s.fps_ else fps,
            width := s.frame_width_, height := s.frame_height_, isColor := true } }) := by
  unfold VideoProcessor.openOutput
  simp only [h, Bool.not_true, Bool.false_eq_true, if_false]
  generalize s.video_writer_.open env _ = w
  cases hw : w.opened <;> simp

/-- C17: when the input is opened, `openOutput(path, codec, rate, quality)` asks the
sink to open with the cached width and height, with the cached codec when `codec == 0`
and the given one otherwise, with the cached rate when `rate <= 0` and the given one
otherwise; it returns true iff the sink is opened after that request; the call is the
same for every `quality`. -/
theorem C17_openOutput_request (s : VideoProcessor) (env : Env) (output_path : String)
    (fourcc : Int) (fps : Double) (quality : Int) (h : s.video_capture_.opened = true) :
    (s.openOutput env output_path fourcc fps quality).2.video_writer_.request =
      some { filename := output_path,
             fourcc := if fourcc = 0 then s.getFourCC else fourcc,
             fps := if fps ≤ 0 then s.getFPS else fps,
             width := s.getFrameWidth, height := s.getFrameHeight, isColor := true } ∧
    (s.openOutput env output_path fourcc fps quality).2.video_writer_.opened =
      env.writerOpens
        { filename := output_path,
          fourcc := if fourcc = 0 then s.getFourCC else fourcc,
          fps := if fps ≤ 0 then s.getFPS else fps,
          width := s.getFrameWidth, height := s.getFrameHeight, isColor := true } ∧
    ((s.openOutput env output_path fourcc fps quality).1 = true ↔
      (s.openOutput env output_path fourcc fps quality).2.video_writer_.opened = true) ∧
    (∀ quality2 : Int, s.openOutput env output_path fourcc fps quality2 =
      s.openOutput env output_path fourcc fps quality) := by
  rw [openOutput_opened s env output_path fourcc fps quality h]
  refine ⟨rfl, rfl, Iff.rfl, fun quality2 => ?_⟩
  rw [openOutput_opened s env output_path fourcc fps quality2 h]

/-- C17 at an opened 640x480 source at rate 25: with codec 0 and rate 0 the request
carries the cached codec and rate and the sink opens; with rate 50 it does not. -/
theorem C17_openOutput_request_witness :
    (VideoProcessor.new.openInput strictSinkEnv "input.mp4").2.video_capture_.opened
      = true ∧
    ((VideoProcessor.new.openInput strictSinkEnv "input.mp4").2.openOutput strictSinkEnv
      "output.mp4" 0 0 60).2.video_writer_.request =
      some { filename := "output.mp4", fourcc := 828601953, fps := 25,
             width := 640, height := 480, isColor := true } ∧
    ((VideoProcessor.new.openInput strictSinkEnv "input.mp4").2.openOutput strictSinkEnv
      "output.mp4" 0 50 60).2.video_writer_.opened = false :=
  ⟨by decide,
   (C17_openOutput_request (VideoProcessor.new.openInput strictSinkEnv "input.mp4").2
      strictSinkEnv "output.mp4" 0 0 60 (by decide)).1,
   (C17_openOutput_request (VideoProcessor.new.openInput strictSinkEnv "input.mp4").2
      strictSinkEnv "output.mp4" 0 50 60 (by decide)).2.1⟩

/-! ### The pool of the processor -/

theorem processFrame_buffer (callback : Option (Mat → Int → Mat)) (pcb : Bool)
    (now : Nat → ℚ) (t0 : ℚ) (frame : Mat) (st : LoopState) :
    (processFrame callback pcb now t0 frame st).frame_buffer_ =
      st.frame_buffer_.release frame := by
  unfold processFrame
  by_cases h : (applyCallback callback frame st.frame_number).empty = true <;>
    cases callback <;> simp only [h] <;> split_ifs <;> simp_all

theorem processLoop_buffer (callback : Option (Mat → Int → Mat)) (pcb : Bool)
    (now : Nat → ℚ) (t0 : ℚ) (stream : List (Bool × Mat)) (st : LoopState) :
    (processLoop callback pcb now t0 stream st).frame_buffer_ =
      st.frame_buffer_.releaseAll (framesRead stream) := by
  induction stream generalizing st with
  | nil => rfl
  | cons p rest ih =>
    obtain ⟨ok, frame⟩ := p
    cases ok with
    | false => simp [processLoop, framesRead, FrameBuffer.releaseAll]
    | true =>
      by_cases he : frame.empty = true
      · simp [processLoop, framesRead, FrameBuffer.releaseAll, he]
      · simp only [processLoop, framesRead, he, Bool.not_true, Bool.false_eq_true, if_false,
          Bool.not_false, Bool.and_self, if_true, FrameBuffer.releaseAll]
        rw [ih, processFrame_buffer]

theorem process_buffer (s : VideoProcessor) (callback : Option (Mat → Int → Mat))
    (pcb : Bool) (now : Nat → ℚ)
    (hc : s.video_capture_.opened = true) (hw : s.video_writer_.opened = true) :
    (s.process callback pcb now).state.frame_buffer_ =
      s.frame_buffer_.releaseAll (framesRead s.video_capture_.stream) := by
  unfold VideoProcessor.process
  simp only [hc, hw, Bool.not_true, Bool.false_eq_true, if_false]
  exact processLoop_buffer _ _ _ _ _ _

theorem framesRead_nonempty (stream : List (Bool × Mat)) :
    ∀ f ∈ framesRead stream, f.empty = false := by
  induction stream with
  | nil => intro f hf; simp [framesRead] at hf
  | cons p rest ih =>
    obtain ⟨ok, frame⟩ := p
    intro f hf
    by_cases h : (ok && !frame.empty) = true
    · rw [framesRead, if_pos h] at hf
      rcases List.mem_cons.mp hf with h1 | h1
      · subst h1
        cases hfe : f.empty <;> simp_all
      · exact ih f h1
    · rw [framesRead, if_neg h] at hf
      simp at hf

theorem FrameBuffer.releaseAll_take (frames : List Mat) (b : FrameBuffer)
    (hb : b.pool_.length ≤ b.capacity_) (hne : ∀ f ∈ frames, f.empty = false) :
    b.releaseAll frames =
      { b with pool_ := b.pool_ ++ frames.take (b.capacity_ - b.pool_.length) } := by
  induction frames generalizing b with
  | nil => simp [FrameBuffer.releaseAll]
  | cons f fs ih =>
    have hf : f.empty = false := hne f (List.mem_cons_self f fs)
    have hfs : ∀ g ∈ fs, g.empty = false := fun g hg => hne g (List.mem_cons_of_mem f hg)
    by_cases hlt : b.pool_.length < b.capacity_
    · have hr : b.release f = { b with pool_ := b.pool_ ++ [f] } := by
        simp [FrameBuffer.release, hf, hlt]
      rw [FrameBuffer.releaseAll, hr, ih _ (by simp; omega) hfs]
      have hk : b.capacity_ - b.pool_.length = (b.capacity_ - (b.pool_.length + 1)) + 1 := by
        omega
      simp only [List.length_append, List.length_singleton]
      rw [hk, List.take_succ_cons]
      simp
    · have hr : b.release f = b := by
        simp [FrameBuffer.release, hf, hlt]
      have hk : b.capacity_ - b.pool_.length = 0 := by omega
      rw [FrameBuffer.releaseAll, hr, ih b hb hfs, hk]
      simp

theorem openInput_buffer (s : VideoProcessor) (env : Env) (input_path : String) :
    (s.openInput env input_path).2.frame_buffer_ = s.frame_buffer_ := by
  unfold VideoProcessor.openInput VideoProcessor.readVideoProperties
  cases ho : (env.capture input_path).opened
  · simp [ho]
  · by_cases hg : (env.capture input_path).width ≤ 0 ∨ (env.capture input_path).height ≤ 0
    · simp [ho, hg]
    · simp only [ho, hg, Bool.not_true, Bool.false_eq_true, if_false]
      split <;> rfl

theorem openOutput_buffer (s : VideoProcessor) (env : Env) (output_path : String)
    (fourcc : Int) (fps : Double) (quality : Int) :
    (s.openOutput env output_path fourcc fps quality).2.frame_buffer_ = s.frame_buffer_ := by
  cases ho : s.video_capture_.opened
  · rw [openOutput_not_opened s env output_path fourcc fps quality ho]
  · rw [openOutput_opened s env output_path fourcc fps quality ho]

theorem process_buffer_any (s : VideoProcessor) (callback : Option (Mat → Int → Mat))
    (pcb : Bool) (now : Nat → ℚ) (hb : s.frame_buffer_.pool_.length ≤ s.frame_buffer_.capacity_) :
    ∃ added : List Mat, (s.process callback pcb now).state.frame_buffer_ =
      { s.frame_buffer_ with pool_ := s.frame_buffer_.pool_ ++ added } ∧
      s.frame_buffer_.pool_.length + added.length ≤ s.frame_buffer_.capacity_ := by
  by_cases hc : s.video_capture_.opened = true
  · by_cases hw : s.video_writer_.opened = true
    · rw [process_buffer s callback pcb now hc hw,
        FrameBuffer.releaseAll_take _ _ hb (framesRead_nonempty _)]
      exact ⟨_, rfl, by rw [List.length_take]; omega⟩
    · rw [process_not_opened s callback pcb now (Or.inr (by simpa using hw))]
      exact ⟨[], by simp, by simpa using hb⟩
  · rw [process_not_opened s callback pcb now (Or.inl (by simpa using hc))]
    exact ⟨[], by simp, by simpa using hb⟩

theorem Reachable.pool_bounded (s : VideoProcessor) (h : Reachable s) :
    s.frame_buffer_.capacity_ = 16 ∧ s.frame_buffer_.pool_.length ≤ 16 := by
  induction h with
  | new => exact ⟨rfl, by decide⟩
  | openInput s env input_path _ ih => rw [openInput_buffer]; exact ih
  | openOutput s env output_path fourcc fps quality _ ih => rw [openOutput_buffer]; exact ih
  | process s callback pcb now _ ih =>
    obtain ⟨added, he, hl⟩ := process_buffer_any s callback pcb now (by omega)
    rw [he]
    simp only [List.length_append]
    exact ⟨ih.1, by omega⟩
  | close s _ ih =>
    unfold VideoProcessor.close
    cases h1 : s.video_capture_.opened <;> cases h2 : s.video_writer_.opened <;>
      simp [h1, h2, FrameBuffer.clear, ih.1]

/-- C20: `process` never takes an entry out of the pool and releases every frame it
reads: on a reachable processor (pool of capacity 16) holding `p` entries, a call that
reads `N` non-empty frames leaves the `p` entries in place, followed by the first
`16 - p` frames read, so the pool holds `min(16, p + N)` entries, whatever the
transform does; the occupancy never exceeds 16, no call of `openInput`, `openOutput`
or `process` lowers it, and `close()` brings it to 0. -/
theorem C20_process_fills_pool (s : VideoProcessor) (hr : Reachable s)
    (callback : Option (Mat → Int → Mat)) (pcb : Bool) (now : Nat → ℚ)
    (frames : List Mat) (rest : List (Bool × Mat))
    (hc : s.video_capture_.opened = true) (hw : s.video_writer_.opened = true)
    (hne : ∀ f ∈ frames, f.empty = false)
    (hs : s.video_capture_.stream = yields frames rest) (hend : StreamEnds rest) :
    (s.process callback pcb now).state.frame_buffer_.pool_ =
      s.frame_buffer_.pool_ ++ frames.take (16 - s.frame_buffer_.available) ∧
    (s.process callback pcb now).state.frame_buffer_.available =
      min 16 (s.frame_buffer_.available + frames.length) ∧
    s.frame_buffer_.available ≤ 16 ∧
    (s.process callback pcb now).state.frame_buffer_.available ≤ 16 ∧
    (∀ (callback2 : Option (Mat → Int → Mat)) (pcb2 : Bool) (now2 : Nat → ℚ),
      s.frame_buffer_.available ≤
        (s.process callback2 pcb2 now2).state.frame_buffer_.available) ∧
    (∀ (env : Env) (input_path : String),
      (s.openInput env input_path).2.frame_buffer_.available = s.frame_buffer_.available) ∧
    (∀ (env : Env) (output_path : String) (fourcc : Int) (fps : Double) (quality : Int),
      (s.openOutput env output_path fourcc fps quality).2.frame_buffer_.available =
        s.frame_buffer_.available) ∧
    s.close.frame_buffer_.available = 0 := by
  obtain ⟨hcap, hlen⟩ := Reachable.pool_bounded s hr
  have hp := process_buffer s callback pcb now hc hw
  rw [hs, framesRead_yields frames rest hne hend,
    FrameBuffer.releaseAll_take frames _ (by omega) hne, hcap] at hp
  unfold FrameBuffer.available
  refine ⟨by rw [hp], ?_, hlen, ?_, ?_, ?_, ?_, ?_⟩
  · rw [hp]
    simp only [List.length_append, List.length_take]
    omega
  · rw [hp]
    simp only [List.length_append, List.length_take]
    omega
  · intro callback2 pcb2 now2
    obtain ⟨added, he, _⟩ := process_buffer_any s callback2 pcb2 now2 (by omega)
    rw [he]
    simp
  · intro env input_path
    rw [openInput_buffer]
  · intro env output_path fourcc fps quality
    rw [openOutput_buffer]
  · unfold VideoProcessor.close
    cases h1 : s.video_capture_.opened <;> cases h2 : s.video_writer_.opened <;>
      simp [h1, h2, FrameBuffer.clear]

/-- C20 at a fresh processor opened on a source of 20 frames, with a transform that
drops a frame: the pool ends with 16 entries. -/
theorem C20_process_fills_pool_witness :
    Reachable (sampleReady 20 (yields (sampleFrames 20) [])) ∧
    ((sampleReady 20 (yields (sampleFrames 20) [])).process (some dropSecond) false
      (fun _ => 0)).state.frame_buffer_.available = 16 ∧
    ((sampleReady 20 (yields (sampleFrames 20) [])).process (some dropSecond) false
      (fun _ => 0)).state.frame_buffer_.pool_ = sampleFrames 16 :=
  have hr : Reachable (sampleReady 20 (yields (sampleFrames 20) [])) :=
    Reachable.openOutput _ _ _ _ _ _ (Reachable.openInput _ _ _ Reachable.new)
  have h := C20_process_fills_pool (sampleReady 20 (yields (sampleFrames 20) [])) hr
    (some dropSecond) false (fun _ => 0) (sampleFrames 20) [] (by decide) (by decide)
    (by decide) (by decide) trivial
  ⟨hr, h.2.1.trans (by decide), h.1.trans (by decide)⟩

/-! ### The events of the loop -/

theorem tmod_succ_thirty (n : Nat) :
    (Int.tmod ((n : Int) + 1) 30 == 0) = ((n + 1) % 30 == 0) := by
  rw [Int.tmod_eq_emod (by omega) (by omega)]
  by_cases h : (n + 1) % 30 = 0
  · have : ((n : Int) + 1) % 30 = 0 := by omega
    simp [h, this]
  · have : ((n : Int) + 1) % 30 ≠ 0 := by omega
    simp [h, this]

theorem processFrame_fps (callback : Option (Mat → Int → Mat)) (pcb : Bool)
    (now : Nat → ℚ) (t0 : ℚ) (frame : Mat) (st : LoopState) :
    (processFrame callback pcb now t0 frame st).stats_.fps = st.stats_.fps := by
  unfold processFrame
  by_cases h : (applyCallback callback frame st.frame_number).empty = true <;>
    cases callback <;> simp only [h] <;> split_ifs <;> simp_all

theorem processFrame_ticks (callback : Option (Mat → Int → Mat)) (pcb : Bool)
    (now : Nat → ℚ) (t0 : ℚ) (frame : Mat) (st : LoopState) :
    (processFrame callback pcb now t0 frame st).ticks =
      st.ticks + (if (pcb && Int.tmod (st.frame_number + 1) 30 == 0) = true then 1 else 0) := by
  unfold processFrame
  by_cases h : (applyCallback callback frame st.frame_number).empty = true <;>
    cases callback <;> simp only [h] <;> split_ifs <;> simp_all

theorem processFrame_trace (callback : Option (Mat → Int → Mat)) (pcb : Bool)
    (now : Nat → ℚ) (t0 : ℚ) (frame : Mat) (st : LoopState) :
    (processFrame callback pcb now t0 frame st).trace =
      st.trace ++
      (match callback with
        | some _ => [Event.transform frame st.frame_number]
        | none => []) ++
      (if (applyCallback callback frame st.frame_number).empty then []
        else [Event.write (applyCallback callback frame st.frame_number)]) ++
      (if (pcb && Int.tmod (st.frame_number + 1) 30 == 0) = true then
        [Event.progress
          { total_frames := st.stats_.total_frames,
            processed_frames := st.stats_.processed_frames +
              (if (applyCallback callback frame st.frame_number).empty then 0 else 1),
            fps := st.stats_.fps,
            elapsed_seconds := now st.ticks - t0 }]
        else []) := by
  unfold processFrame
  by_cases h : (applyCallback callback frame st.frame_number).empty = true <;>
    cases callback <;> simp only [h] <;> split_ifs <;> simp_all

theorem emitted_snoc (callback : Option (Mat → Int → Mat)) (pre : List Mat) (f : Mat)
    (i : Int) :
    emitted callback (pre ++ [f]) i =
      emitted callback pre i ++
        (if (applyCallback callback f (i + (pre.length : Int))).empty then []
          else [applyCallback callback f (i + (pre.length : Int))]) := by
  induction pre generalizing i with
  | nil =>
    by_cases h : (applyCallback callback f i).empty = true <;>
      simp [emitted, outputs, List.filter_cons, h]
  | cons g gs ih =>
    rw [List.cons_append, emitted_cons, emitted_cons, ih (i + 1)]
    have hidx : i + 1 + (gs.length : Int) = i + ((g :: gs).length : Int) := by
      simp only [List.length_cons]
      push_cast
      ring
    rw [hidx]
    split <;> simp

theorem loopTrace_succ (callback : Option (Mat → Int → Mat)) (pcb : Bool) (now : Nat → ℚ)
    (total : Int) (frames : List Mat) (n : Nat) :
    loopTrace callback pcb now total frames (n + 1) =
      loopTrace callback pcb now total frames n ++
        iterationEvents callback pcb now total frames n := by
  unfold loopTrace
  rw [List.range_succ, List.flatMap_append, List.flatMap_singleton]

theorem LoopInv.step (callback : Option (Mat → Int → Mat)) (pcb : Bool) (now : Nat → ℚ)
    (total : Int) (frames : List Mat) (n : Nat) (st : LoopState) (f : Mat)
    (pending : List (Bool × Mat))
    (hinv : LoopInv callback pcb now total frames n st) (hn : frames[n]? = some f) :
    LoopInv callback pcb now total frames (n + 1)
      (processFrame callback pcb now (now 0) f
        { st with pending := pending, trace := st.trace ++ [Event.read true f] }) := by
  have hlt : n < frames.length := by
    rcases Nat.lt_or_ge n frames.length with h | h
    · exact h
    · rw [List.getElem?_eq_none h] at hn
      exact absurd hn (by simp)
  have htake : frames.take (n + 1) = frames.take n ++ [f] := by
    rw [List.take_succ, hn]
    rfl
  have hlen : (frames.take n).length = n := by
    rw [List.length_take]
    omega
  have hem : emitted callback (frames.take (n + 1)) 0 =
      emitted callback (frames.take n) 0 ++
        (if (applyCallback callback f (n : Int)).empty then []
          else [applyCallback callback f (n : Int)]) := by
    rw [htake, emitted_snoc, hlen, zero_add]
  have hproc : (st.stats_.processed_frames +
      (if (applyCallback callback f (n : Int)).empty then 0 else 1) : Int) =
      ((emitted callback (frames.take (n + 1)) 0).length : Int) := by
    rw [hem, hinv.processed]
    split <;> simp
  have hcond : (pcb && Int.tmod ((n : Int) + 1) 30 == 0) = (pcb && (n + 1) % 30 == 0) := by
    rw [tmod_succ_thirty]
  constructor
  · rw [processFrame_frame_number]
    simp only [hinv.frame_number]
    push_cast
    rfl
  · rw [processFrame_processed]
    simp only [hinv.frame_number]
    exact hproc
  · rw [processFrame_total]
    exact hinv.total_frames
  · rw [processFrame_fps]
    exact hinv.fps
  · rw [processFrame_ticks]
    simp only [hinv.frame_number, hinv.ticks, hcond]
    cases pcb
    · simp
    · by_cases h30 : (n + 1) % 30 = 0
      · simp only [Bool.true_and, h30, beq_self_eq_true, if_true]
        omega
      · have hb : ((n + 1) % 30 == 0) = false := by simpa using h30
        simp only [Bool.true_and, hb, Bool.false_eq_true, if_false, if_true]
        omega
  · rw [processFrame_trace, loopTrace_succ]
    simp only [hinv.frame_number, hinv.trace, hinv.total_frames, hinv.fps, hinv.ticks, hcond,
      hproc]
    unfold iterationEvents
    simp only [hn, List.append_assoc]
    congr 3
    by_cases hp : (pcb && (n + 1) % 30 == 0) = true
    · simp only [hp, if_true]
      have hpcb : pcb = true := by
        cases pcb <;> simp_all
      have h30 : (n + 1) % 30 = 0 := by
        cases pcb <;> simp_all
      have hj : 30 * ((n + 1) / 30 - 1 + 1) = n + 1 := by omega
      have hk : 1 + n / 30 = (n + 1) / 30 - 1 + 1 := by omega
      simp only [progressSnapshot, hj, hpcb, if_true, hk]
    · simp only [hp, if_false]
      simp at hp ⊢

theorem processLoop_inv (callback : Option (Mat → Int → Mat)) (pcb : Bool) (now : Nat → ℚ)
    (total : Int) (frames : List Mat) (rest : List (Bool × Mat)) (hend : StreamEnds rest)
    (suf : List Mat) (n : Nat) (st : LoopState)
    (hdrop : frames.drop n = suf) (hn : n ≤ frames.length)
    (hne : ∀ f ∈ suf, f.empty = false)
    (hinv : LoopInv callback pcb now total frames n st) :
    (processLoop callback pcb now (now 0) (yields suf rest) st).trace =
      loopTrace callback pcb now total frames frames.length ++ [lastRead rest] ∧
    (processLoop callback pcb now (now 0) (yields suf rest) st).pending = rest.tail ∧
    (processLoop callback pcb now (now 0) (yields suf rest) st).ticks =
      1 + (if pcb then frames.length / 30 else 0) := by
  induction suf generalizing n st with
  | nil =>
    have hlen : n = frames.length := by
      have := List.drop_eq_nil_iff.mp hdrop
      omega
    subst hlen
    cases rest with
    | nil =>
      simp only [yields, List.map_nil, List.nil_append, processLoop, lastRead, List.tail_nil]
      exact ⟨by rw [hinv.trace], trivial, hinv.ticks⟩
    | cons p tl =>
      obtain ⟨ok, fr⟩ := p
      rcases hend with h | h
      · subst h
        simp only [yields, List.map_nil, List.nil_append, processLoop, lastRead,
          List.tail_cons, Bool.not_false, if_true]
        exact ⟨by rw [hinv.trace], trivial, hinv.ticks⟩
      · cases ok
        · simp only [yields, List.map_nil, List.nil_append, processLoop, lastRead,
            List.tail_cons, Bool.not_false, if_true]
          exact ⟨by rw [hinv.trace], trivial, hinv.ticks⟩
        · simp only [yields, List.map_nil, List.nil_append, processLoop, lastRead,
            List.tail_cons, Bool.not_true, Bool.false_eq_true, if_false, h, if_true]
          exact ⟨by rw [hinv.trace], trivial, hinv.ticks⟩
  | cons f fs ih =>
    have hlt : n < frames.length := by
      rcases Nat.lt_or_ge n frames.length with h | h
      · exact h
      · rw [List.drop_eq_nil_iff.mpr h] at hdrop
        exact absurd hdrop (by simp)
    rw [List.drop_eq_getElem_cons hlt] at hdrop
    have hf : frames[n] = f := (List.cons.inj hdrop).1
    have hfs : frames.drop (n + 1) = fs := (List.cons.inj hdrop).2
    have hget : frames[n]? = some f := by
      rw [List.getElem?_eq_getElem hlt, hf]
    have hfe : f.empty = false := hne f (List.mem_cons_self f fs)
    have hstep := LoopInv.step callback pcb now total frames n st f (yields fs rest) hinv hget
    have := ih (n + 1) _ hfs (by omega) (fun g hg => hne g (List.mem_cons_of_mem f hg)) hstep
    simp only [yields, List.map_cons, List.cons_append, processLoop, Bool.not_true,
      Bool.false_eq_true, if_false, hfe] at this ⊢
    exact this

theorem process_trace (s : VideoProcessor) (callback : Option (Mat → Int → Mat))
    (pcb : Bool) (now : Nat → ℚ) (frames : List Mat) (rest : List (Bool × Mat))
    (hc : s.video_capture_.opened = true) (hw : s.video_writer_.opened = true)
    (hne : ∀ f ∈ frames, f.empty = false)
    (hs : s.video_capture_.stream = yields frames rest) (hend : StreamEnds rest) :
    (s.process callback pcb now).trace =
      loopTrace callback pcb now s.total_frames_ frames frames.length ++ [lastRead rest] ∧
    (s.process callback pcb now).state.video_capture_.stream = rest.tail := by
  have hinv : LoopInv callback pcb now s.total_frames_ frames 0
      { video_writer_ := s.video_writer_, frame_buffer_ := s.frame_buffer_,
        stats_ := { ProcessingStats.new with total_frames := s.total_frames_ },
        frame_number := 0, ticks := 1, trace := [], pending := s.video_capture_.stream } := by
    constructor <;> simp [ProcessingStats.new, emitted, outputs, loopTrace]
  obtain ⟨h1, h2, _⟩ := processLoop_inv callback pcb now s.total_frames_ frames rest hend
    frames 0 _ (List.drop_zero frames) (Nat.zero_le _) hne hinv
  unfold VideoProcessor.process
  simp only [hc, hw, Bool.not_true, Bool.false_eq_true, if_false]
  rw [hs]
  rw [hs] at h1 h2
  exact ⟨h1, h2⟩

/-! ### Projections of the expected events -/

theorem iteration_progressCalls (callback : Option (Mat → Int → Mat)) (pcb : Bool)
    (now : Nat → ℚ) (total : Int) (frames : List Mat) (n : Nat) (f : Mat)
    (hn : frames[n]? = some f) :
    progressCalls (iterationEvents callback pcb now total frames n) =
      if (pcb && (n + 1) % 30 == 0) = true then
        [progressSnapshot callback now total frames ((n + 1) / 30 - 1)]
      else [] := by
  unfold iterationEvents progressCalls
  simp only [hn, List.filterMap_append]
  by_cases he : (applyCallback callback f (n : Int)).empty = true <;>
    by_cases hp : (pcb && (n + 1) % 30 == 0) = true <;>
    cases callback <;>
    simp [he, hp]

theorem iteration_transformCalls (callback : Option (Mat → Int → Mat)) (pcb : Bool)
    (now : Nat → ℚ) (total : Int) (frames : List Mat) (n : Nat) (f : Mat)
    (hn : frames[n]? = some f) :
    transformCalls (iterationEvents callback pcb now total frames n) =
      match callback with
      | some _ => [(f, (n : Int))]
      | none => [] := by
  unfold iterationEvents transformCalls
  simp only [hn, List.filterMap_append]
  by_cases he : (applyCallback callback f (n : Int)).empty = true <;>
    by_cases hp : (pcb && (n + 1) % 30 == 0) = true <;>
    cases callback <;>
    simp [he, hp]

theorem iteration_readEvents (callback : Option (Mat → Int → Mat)) (pcb : Bool)
    (now : Nat → ℚ) (total : Int) (frames : List Mat) (n : Nat) (f : Mat)
    (hn : frames[n]? = some f) :
    readEvents (iterationEvents callback pcb now total frames n) = [(true, f)] := by
  unfold iterationEvents readEvents
  simp only [hn, List.filterMap_append]
  by_cases he : (applyCallback callback f (n : Int)).empty = true <;>
    by_cases hp : (pcb && (n + 1) % 30 == 0) = true <;>
    cases callback <;>
    simp [he, hp]

theorem iteration_writeEvents (callback : Option (Mat → Int → Mat)) (pcb : Bool)
    (now : Nat → ℚ) (total : Int) (frames : List Mat) (n : Nat) (f : Mat)
    (hn : frames[n]? = some f) :
    writeEvents (iterationEvents callback pcb now total frames n) =
      if (applyCallback callback f (n : Int)).empty then []
      else [applyCallback callback f (n : Int)] := by
  unfold iterationEvents writeEvents
  simp only [hn, List.filterMap_append]
  by_cases he : (applyCallback callback f (n : Int)).empty = true <;>
    by_cases hp : (pcb && (n + 1) % 30 == 0) = true <;>
    cases callback <;>
    simp [he, hp]

theorem getElem?_of_lt_length (frames : List Mat) (n : Nat) (h : n < frames.length) :
    frames[n]? = some frames[n] ∧ frames.take (n + 1) = frames.take n ++ [frames[n]] ∧
    (frames.take n).length = n := by
  refine ⟨List.getElem?_eq_getElem h, ?_, ?_⟩
  · rw [List.take_succ, List.getElem?_eq_getElem h]
    rfl
  · rw [List.length_take]
    omega

theorem loopTrace_progressCalls (callback : Option (Mat → Int → Mat)) (pcb : Bool)
    (now : Nat → ℚ) (total : Int) (frames : List Mat) (n : Nat) (hn : n ≤ frames.length) :
    progressCalls (loopTrace callback pcb now total frames n) =
      if pcb then (List.range (n / 30)).map (progressSnapshot callback now total frames)
      else [] := by
  induction n with
  | zero => cases pcb <;> simp [loopTrace, progressCalls]
  | succ n ih =>
    obtain ⟨hget, _, _⟩ := getElem?_of_lt_length frames n (by omega)
    rw [loopTrace_succ, progressCalls, List.filterMap_append, ← progressCalls, ← progressCalls,
      ih (by omega), iteration_progressCalls callback pcb now total frames n _ hget]
    cases pcb
    · simp
    · by_cases h30 : (n + 1) % 30 = 0
      · have hdiv : (n + 1) / 30 = n / 30 + 1 := by omega
        have hj : (n + 1) / 30 - 1 = n / 30 := by omega
        simp only [Bool.true_and, h30, beq_self_eq_true, if_true, hdiv, List.range_succ,
          List.map_append, List.map_singleton]
        rw [show n / 30 + 1 - 1 = n / 30 by omega]
      · have hdiv : (n + 1) / 30 = n / 30 := by omega
        have hb : ((n + 1) % 30 == 0) = false := by simpa using h30
        simp [hb, hdiv]

theorem loopTrace_transformCalls (t : Mat → Int → Mat) (pcb : Bool)
    (now : Nat → ℚ) (total : Int) (frames : List Mat) (n : Nat) (hn : n ≤ frames.length) :
    transformCalls (loopTrace (some t) pcb now total frames n) =
      (frames.take n).enum.map (fun p => (p.2, (p.1 : Int))) := by
  induction n with
  | zero => simp [loopTrace, transformCalls]
  | succ n ih =>
    obtain ⟨hget, htake, hlen⟩ := getElem?_of_lt_length frames n (by omega)
    rw [loopTrace_succ, transformCalls, List.filterMap_append, ← transformCalls,
      ← transformCalls, ih (by omega),
      iteration_transformCalls (some t) pcb now total frames n _ hget, htake,
      List.enum_append, hlen]
    simp

theorem loopTrace_none_transformCalls (pcb : Bool)
    (now : Nat → ℚ) (total : Int) (frames : List Mat) (n : Nat) (hn : n ≤ frames.length) :
    transformCalls (loopTrace none pcb now total frames n) = [] := by
  induction n with
  | zero => simp [loopTrace, transformCalls]
  | succ n ih =>
    obtain ⟨hget, _, _⟩ := getElem?_of_lt_length frames n (by omega)
    rw [loopTrace_succ, transformCalls, List.filterMap_append, ← transformCalls,
      ← transformCalls, ih (by omega),
      iteration_transformCalls none pcb now total frames n _ hget]
    rfl

theorem loopTrace_readEvents (callback : Option (Mat → Int → Mat)) (pcb : Bool)
    (now : Nat → ℚ) (total : Int) (frames : List Mat) (n : Nat) (hn : n ≤ frames.length) :
    readEvents (loopTrace callback pcb now total frames n) =
      (frames.take n).map (fun f => (true, f)) := by
  induction n with
  | zero => simp [loopTrace, readEvents]
  | succ n ih =>
    obtain ⟨hget, htake, _⟩ := getElem?_of_lt_length frames n (by omega)
    rw [loopTrace_succ, readEvents, List.filterMap_append, ← readEvents, ← readEvents,
      ih (by omega), iteration_readEvents callback pcb now total frames n _ hget, htake,
      List.map_append, List.map_singleton]

theorem loopTrace_writeEvents (callback : Option (Mat → Int → Mat)) (pcb : Bool)
    (now : Nat → ℚ) (total : Int) (frames : List Mat) (n : Nat) (hn : n ≤ frames.length) :
    writeEvents (loopTrace callback pcb now total frames n) =
      emitted callback (frames.take n) 0 := by
  induction n with
  | zero => simp [loopTrace, writeEvents, emitted, outputs]
  | succ n ih =>
    obtain ⟨hget, htake, hlen⟩ := getElem?_of_lt_length frames n (by omega)
    rw [loopTrace_succ, writeEvents, List.filterMap_append, ← writeEvents, ← writeEvents,
      ih (by omega), iteration_writeEvents callback pcb now total frames n _ hget, htake,
      emitted_snoc, hlen, zero_add]

theorem outputs_enumFrom (t : Mat → Int → Mat) (frames : List Mat) (n : Nat) :
    outputs (some t) frames (n : Int) =
      (frames.enumFrom n).map (fun p => t p.2 (p.1 : Int)) := by
  induction frames generalizing n with
  | nil => rfl
  | cons f fs ih =>
    have := ih (n + 1)
    push_cast at this
    simp [outputs, applyCallback, List.enumFrom_cons, this]

theorem lastRead_projections (rest : List (Bool × Mat)) :
    readEvents [lastRead rest] = [rest.head?.getD (false, Mat.mk0)] ∧
    transformCalls [lastRead rest] = [] ∧ progressCalls [lastRead rest] = [] ∧
    writeEvents [lastRead rest] = [] := by
  cases rest with
  | nil => exact ⟨rfl, rfl, rfl, rfl⟩
  | cons p tl => exact ⟨rfl, rfl, rfl, rfl⟩

/-- C18: for every transform `t` and every source that yields the non-empty frames
`f_0 .. f_(N-1)` before its first failed read or empty frame, `process` calls `t`
exactly once per frame, in order, as `t(f_i, i)` for `i = 0 .. N-1`; the sink receives
the non-empty ones among these results, in index order; `processed_frames` is their
number; the source is read `N + 1` times, the last read being the one that ends the
stream, and what follows it in the stream is left unread. -/
theorem C18_transform_called_once_per_frame (s : VideoProcessor) (t : Mat → Int → Mat)
    (pcb : Bool) (now : Nat → ℚ) (frames : List Mat) (rest : List (Bool × Mat))
    (hc : s.video_capture_.opened = true) (hw : s.video_writer_.opened = true)
    (hne : ∀ f ∈ frames, f.empty = false)
    (hs : s.video_capture_.stream = yields frames rest) (hend : StreamEnds rest) :
    transformCalls (s.process (some t) pcb now).trace =
      frames.enum.map (fun p => (p.2, (p.1 : Int))) ∧
    (s.process (some t) pcb now).state.video_writer_.written =
      s.video_writer_.written ++
        (frames.enum.map (fun p => t p.2 (p.1 : Int))).filter (fun m => !m.empty) ∧
    (s.process (some t) pcb now).state.getStats.processed_frames =
      (((frames.enum.map (fun p => t p.2 (p.1 : Int))).filter
        (fun m => !m.empty)).length : Int) ∧
    readEvents (s.process (some t) pcb now).trace =
      frames.map (fun f => (true, f)) ++ [rest.head?.getD (false, Mat.mk0)] ∧
    (s.process (some t) pcb now).state.video_capture_.stream = rest.tail := by
  obtain ⟨htr, hst⟩ := process_trace s (some t) pcb now frames rest hc hw hne hs hend
  obtain ⟨h1, h2, _, _, _⟩ := process_opened s (some t) pcb now hc hw
  obtain ⟨l1, l2, _, _⟩ := lastRead_projections rest
  have hout : emitted (some t) frames 0 =
      (frames.enum.map (fun p => t p.2 (p.1 : Int))).filter (fun m => !m.empty) := by
    have := outputs_enumFrom t frames 0
    simp only [Nat.cast_zero] at this
    rw [emitted, this]
    rfl
  rw [hs, framesRead_yields frames rest hne hend, hout] at h1 h2
  refine ⟨?_, h1, h2, ?_, hst⟩
  · rw [htr, transformCalls, List.filterMap_append, ← transformCalls, ← transformCalls, l2,
      loopTrace_transformCalls t pcb now _ frames frames.length (Nat.le_refl _),
      List.take_length, List.append_nil]
  · rw [htr, readEvents, List.filterMap_append, ← readEvents, ← readEvents, l1,
      loopTrace_readEvents _ pcb now _ frames frames.length (Nat.le_refl _),
      List.take_length]

/-- C18 at a source of three frames followed by a failed read and one more frame, with
a transform that drops index 1. -/
theorem C18_transform_called_once_per_frame_witness :
    (sampleReady 3 (yields (sampleFrames 3) [(false, Mat.mk0), (true, sampleFrame 7)])
      ).video_capture_.opened = true ∧
    transformCalls ((sampleReady 3 (yields (sampleFrames 3)
      [(false, Mat.mk0), (true, sampleFrame 7)])).process (some dropSecond) false
      (fun _ => 0)).trace =
      [(sampleFrame 0, 0), (sampleFrame 1, 1), (sampleFrame 2, 2)] ∧
    ((sampleReady 3 (yields (sampleFrames 3)
      [(false, Mat.mk0), (true, sampleFrame 7)])).process (some dropSecond) false
      (fun _ => 0)).state.video_writer_.written = [sampleFrame 0, sampleFrame 2] ∧
    ((sampleReady 3 (yields (sampleFrames 3)
      [(false, Mat.mk0), (true, sampleFrame 7)])).process (some dropSecond) false
      (fun _ => 0)).state.video_capture_.stream = [(true, sampleFrame 7)] :=
  have h := C18_transform_called_once_per_frame
    (sampleReady 3 (yields (sampleFrames 3) [(false, Mat.mk0), (true, sampleFrame 7)]))
    dropSecond false (fun _ => 0) (sampleFrames 3) [(false, Mat.mk0), (true, sampleFrame 7)]
    (by decide) (by decide) (by decide) (by decide) (Or.inl rfl)
  ⟨by decide, h.1.trans (by decide), h.2.1.trans (by decide), h.2.2.2.2⟩

/-! ### The progress callback -/

theorem loopTrace_prefix (callback : Option (Mat → Int → Mat)) (pcb : Bool)
    (now : Nat → ℚ) (total : Int) (frames : List Mat) (a k : Nat) :
    ∃ tl, loopTrace callback pcb now total frames (a + k) =
      loopTrace callback pcb now total frames a ++ tl := by
  induction k with
  | zero => exact ⟨[], by simp⟩
  | succ k ih =>
    obtain ⟨tl, h⟩ := ih
    refine ⟨tl ++ iterationEvents callback pcb now total frames (a + k), ?_⟩
    rw [← Nat.add_assoc, loopTrace_succ, h, List.append_assoc]

theorem iteration_split (callback : Option (Mat → Int → Mat)) (now : Nat → ℚ) (total : Int)
    (frames : List Mat) (n : Nat) (f : Mat) (hn : frames[n]? = some f)
    (h30 : (n + 1) % 30 = 0) :
    ∃ init, iterationEvents callback true now total frames n =
        init ++ [Event.progress (progressSnapshot callback now total frames ((n + 1) / 30 - 1))] ∧
      progressCalls init = [] ∧ readEvents init = [(true, f)] ∧
      writeEvents init =
        (if (applyCallback callback f (n : Int)).empty then []
          else [applyCallback callback f (n : Int)]) := by
  refine ⟨[Event.read true f] ++
    (match callback with
      | some _ => [Event.transform f (n : Int)]
      | none => []) ++
    (if (applyCallback callback f (n : Int)).empty then []
      else [Event.write (applyCallback callback f (n : Int))]), ?_, ?_, ?_, ?_⟩
  · unfold iterationEvents
    simp [hn, h30]
  · unfold progressCalls
    by_cases he : (applyCallback callback f (n : Int)).empty = true <;> cases callback <;>
      simp [he]
  · unfold readEvents
    by_cases he : (applyCallback callback f (n : Int)).empty = true <;> cases callback <;>
      simp [he]
  · unfold writeEvents
    by_cases he : (applyCallback callback f (n : Int)).empty = true <;> cases callback <;>
      simp [he]

/-- C19: when a progress callback is supplied and the source yields `N` frames,
`process` calls it exactly `floor(N / 30)` times, whatever the transform drops, and
never when `N < 30`. The call number `j` (from 0) comes when exactly the first
`30 * (j + 1)` frames have been read and their non-empty results written, and before
any further read; its snapshot has `processed_frames` equal to the number of non-empty
results among these frames and `total_frames` equal to the cached source total.
Without a progress callback there is no call. -/
theorem C19_progress_every_thirty_frames (s : VideoProcessor)
    (callback : Option (Mat → Int → Mat)) (now : Nat → ℚ) (frames : List Mat)
    (rest : List (Bool × Mat))
    (hc : s.video_capture_.opened = true) (hw : s.video_writer_.opened = true)
    (hne : ∀ f ∈ frames, f.empty = false)
    (hs : s.video_capture_.stream = yields frames rest) (hend : StreamEnds rest) :
    progressCalls (s.process callback true now).trace =
      (List.range (frames.length / 30)).map
        (progressSnapshot callback now s.getTotalFrames frames) ∧
    (progressCalls (s.process callback true now).trace).length = frames.length / 30 ∧
    (frames.length < 30 → progressCalls (s.process callback true now).trace = []) ∧
    (∀ j, j < frames.length / 30 →
      (progressSnapshot callback now s.getTotalFrames frames j).total_frames =
        s.getTotalFrames ∧
      (progressSnapshot callback now s.getTotalFrames frames j).processed_frames =
        (((outputs callback (frames.take (30 * (j + 1))) 0).filter
          (fun m => !m.empty)).length : Int) ∧
      ∃ pre post, (s.process callback true now).trace =
          pre ++ Event.progress (progressSnapshot callback now s.getTotalFrames frames j)
            :: post ∧
        (progressCalls pre).length = j ∧
        readEvents pre = (frames.take (30 * (j + 1))).map (fun f => (true, f)) ∧
        writeEvents pre = emitted callback (frames.take (30 * (j + 1))) 0) ∧
    progressCalls (s.process callback false now).trace = [] := by
  obtain ⟨htr, _⟩ := process_trace s callback true now frames rest hc hw hne hs hend
  obtain ⟨htr2, _⟩ := process_trace s callback false now frames rest hc hw hne hs hend
  obtain ⟨_, _, l3, _⟩ := lastRead_projections rest
  have hcalls : progressCalls (s.process callback true now).trace =
      (List.range (frames.length / 30)).map
        (progressSnapshot callback now s.getTotalFrames frames) := by
    rw [htr, progressCalls, List.filterMap_append, ← progressCalls, ← progressCalls, l3,
      loopTrace_progressCalls callback true now _ frames frames.length (Nat.le_refl _),
      List.append_nil]
    rfl
  refine ⟨hcalls, ?_, ?_, ?_, ?_⟩
  · rw [hcalls, List.length_map, List.length_range]
  · intro hlt
    rw [hcalls, Nat.div_eq_of_lt hlt]
    rfl
  · intro j hj
    refine ⟨rfl, rfl, ?_⟩
    have hm : 30 * (j + 1) - 1 < frames.length := by omega
    obtain ⟨hget, htake, hlen⟩ := getElem?_of_lt_length frames (30 * (j + 1) - 1) hm
    have hm1 : 30 * (j + 1) - 1 + 1 = 30 * (j + 1) := by omega
    obtain ⟨tl, htl⟩ := loopTrace_prefix callback true now s.total_frames_ frames
      (30 * (j + 1)) (frames.length - 30 * (j + 1))
    rw [show 30 * (j + 1) + (frames.length - 30 * (j + 1)) = frames.length by omega] at htl
    obtain ⟨init, hinit, hp, hrd, hwr⟩ := iteration_split callback now s.total_frames_ frames
      (30 * (j + 1) - 1) _ hget (by omega)
    rw [hm1, show 30 * (j + 1) / 30 - 1 = j by omega] at hinit
    rw [hm1] at htake
    refine ⟨loopTrace callback true now s.total_frames_ frames (30 * (j + 1) - 1) ++ init,
      tl ++ [lastRead rest], ?_, ?_, ?_, ?_⟩
    · rw [htr, htl]
      have hsplit := loopTrace_succ callback true now s.total_frames_ frames
        (30 * (j + 1) - 1)
      rw [hm1, hinit] at hsplit
      rw [hsplit]
      simp [VideoProcessor.getTotalFrames]
    · rw [progressCalls, List.filterMap_append, ← progressCalls, ← progressCalls, hp,
        loopTrace_progressCalls callback true now _ frames _ (by omega)]
      simp only [if_true, List.append_nil, List.length_map, List.length_range]
      omega
    · rw [readEvents, List.filterMap_append, ← readEvents, ← readEvents, hrd,
        loopTrace_readEvents callback true now _ frames _ (by omega), htake,
        List.map_append, List.map_singleton]
    · rw [writeEvents, List.filterMap_append, ← writeEvents, ← writeEvents, hwr,
        loopTrace_writeEvents callback true now _ frames _ (by omega), htake,
        emitted_snoc, hlen, zero_add]
  · rw [htr2, progressCalls, List.filterMap_append, ← progressCalls, ← progressCalls, l3,
      loopTrace_progressCalls callback false now _ frames frames.length (Nat.le_refl _)]
    rfl

/-- C19 at a source of 61 frames with a transform that drops index 1: two calls of the
progress callback, the first one with 29 frames processed. -/
theorem C19_progress_every_thirty_frames_witness :
    (sampleReady 61 (yields (sampleFrames 61) [])).video_capture_.opened = true ∧
    (sampleReady 61 (yields (sampleFrames 61) [])).video_writer_.opened = true ∧
    (progressCalls ((sampleReady 61 (yields (sampleFrames 61) [])).process (some dropSecond)
      true (fun _ => 0)).trace).length = 2 ∧
    (progressSnapshot (some dropSecond) (fun _ => 0)
      (sampleReady 61 (yields (sampleFrames 61) [])).getTotalFrames (sampleFrames 61)
      0).processed_frames = 29 :=
  have h := C19_progress_every_thirty_frames (sampleReady 61 (yields (sampleFrames 61) []))
    (some dropSecond) (fun _ => 0) (sampleFrames 61) [] (by decide) (by decide) (by decide)
    (by decide) trivial
  ⟨by decide, by decide, h.2.1.trans (by decide),
   (h.2.2.2.1 0 (by decide)).2.1.trans (by decide)⟩

end lpr

